import Mathlib

/-!
# Verification of the EIN names editor core (`src/main.py`)

Shallow embedding of the record store, name-transfer engine, status
classifier and read-through cache of the EIN names editor service, together
with proofs of the specified properties.

The embedding models the typed content of the pandas dataframe rows as an
association list of records keyed by EIN (`df.at[idx, col]` reads/writes on
the first row matching an EIN become `alistFind` / `alistUpdate`), the
`ein_cache` dict as an association list of rendered views, and the
`edited_eins` set as a `Finset`.  Persistence success/failure is an explicit
boolean parameter of the mutation entry point.
-/

namespace EinEditor

/-- One dataframe row: the typed content of the columns
`unique_names_v2`, `marked_names`, `name_ein_mappings`, `new_name`,
`completion_status` of `src/main.py`.  `new_name = none` models `pd.NA`;
`completion_status = none` models a row whose status column was never
written. -/
structure Record where
  names : List String
  marked : List String
  mappings : List (String × Nat)
  new_name : Option String
  completion_status : Option String
deriving DecidableEq, Repr

/-- The rendered view built by `get_ein_data` (src/main.py lines 346-354). -/
structure View where
  ein : Nat
  names : List String
  marked : List String
  new_name : Option String
  total_names : Nat
  mappings : List (String × Nat)
  status : String
deriving DecidableEq, Repr

/-- The body of `POST /ein/{ein}/save` (class `SaveRequest`,
src/main.py lines 62-66).  `name_ein_mappings` is a Python dict, modelled as
its insertion-ordered list of key/value pairs. -/
structure SaveRequest where
  marked_names : List String
  new_name : Option String
  name_ein_mappings : List (String × Nat)
deriving DecidableEq, Repr

/-- The JSON object returned by a successful save (src/main.py
lines 471-479).  `pending_reported` models the count embedded in the
message part `"{len(names_to_map)} name(s) mapped to non-existent EIN(s)"`
(line 469). -/
structure SaveResult where
  total_names : Nat
  marked_count : Nat
  new_name : Option String
  mappings_count : Nat
  transferred_count : Nat
  completion_status : String
  pending_reported : Nat
deriving DecidableEq, Repr

/-- The error responses raised by the endpoints: HTTP 404 "EIN not found"
and HTTP 500 "Failed to save changes". -/
inductive ApiError where
  | notFound
  | saveFailed
deriving DecidableEq, Repr

/-- The process state: the dataframe rows (`data_store["df"]`), the
`edited_eins` set, and the `ein_cache`. -/
structure SysState where
  df : List (Nat × Record)
  edited : Finset Nat
  cache : List (Nat × View)
deriving DecidableEq

/-! ## Association-list primitives

`alistFind` models `df[df["spons_dfe_ein"] == k].iloc[0]` (first matching
row); `alistUpdate` models a write `df.at[idx, col] = v` to that first row;
`alistUpsert` models Python dict assignment `d[k] = v` (replace in place if
present, else append); `alistErase` models `d.pop(k, None)`. -/

def alistFind {β : Type _} : List (Nat × β) → Nat → Option β
  | [], _ => none
  | (j, r) :: rest, k => if j = k then some r else alistFind rest k

def alistUpdate {β : Type _} : List (Nat × β) → Nat → (β → β) → List (Nat × β)
  | [], _, _ => []
  | (j, r) :: rest, k, f => if j = k then (j, f r) :: rest else (j, r) :: alistUpdate rest k f

def alistErase {β : Type _} : List (Nat × β) → Nat → List (Nat × β)
  | [], _ => []
  | (j, r) :: rest, k => if j = k then alistErase rest k else (j, r) :: alistErase rest k

def alistUpsert {β : Type _} : List (Nat × β) → Nat → β → List (Nat × β)
  | [], k, v => [(k, v)]
  | (j, r) :: rest, k, v => if j = k then (k, v) :: rest else (j, r) :: alistUpsert rest k v

/-- Python dict assignment `d[k] = v` for the string-keyed
`name_ein_mappings` dicts. -/
def dictInsert : List (String × Nat) → String → Nat → List (String × Nat)
  | [], k, v => [(k, v)]
  | (j, r) :: rest, k, v => if j = k then (k, v) :: rest else (j, r) :: dictInsert rest k v

/-- Python `old.update(new)`: assign each pair of `new` into `old` in
order (src/main.py line 437). -/
def dictUpdate (old new : List (String × Nat)) : List (String × Nat) :=
  new.foldl (fun acc p => dictInsert acc p.1 p.2) old

/-! ## Status classifier -/

/-- `calculate_completion_status` (src/main.py lines 222-239) on the typed
triple.  `processed = set(marked) | set(mappings.keys())`. -/
def calculate_completion_status (names marked : List String)
    (mappings : List (String × Nat)) : String :=
  if names = [] then "empty"
  else
    let processed := marked.toFinset ∪ (mappings.map Prod.fst).toFinset
    if processed.card = 0 then "not_started"
    else if processed.card = names.length then "done"
    else "partially_done"

/-- The classifier applied to a row. -/
def classifyRecord (r : Record) : String :=
  calculate_completion_status r.names r.marked r.mappings

/-! ## Read-through cache (`get_ein_data`, src/main.py lines 300-358) -/

/-- The view built from a row on a cache miss (lines 346-354). -/
def renderView (ein : Nat) (r : Record) : View :=
  { ein := ein
    names := r.names
    marked := r.marked
    new_name := r.new_name
    total_names := r.names.length
    mappings := r.mappings
    status := classifyRecord r }

/-- `GET /ein/{ein}`: serve from the cache if present, else build the view
from the first matching row and cache it; 404 when the EIN is absent. -/
def get_ein_data (s : SysState) (ein : Nat) : SysState × Except ApiError View :=
  match alistFind s.cache ein with
  | some v => (s, Except.ok v)
  | none =>
    match alistFind s.df ein with
    | none => (s, Except.error ApiError.notFound)
    | some r =>
      let v := renderView ein r
      ({ s with cache := alistUpsert s.cache ein v }, Except.ok v)

/-! ## Transfer engine (`save_ein_changes`, src/main.py lines 361-479) -/

/-- State threaded through the transfer loop (lines 411-430): the rows, the
cache and `transferred_count`.  The Python loop mutates the source's names
list in place, so every read of the source or target names inside the loop
observes all previous iterations; the embedding reads them from the
current rows. -/
structure TransferState where
  df : List (Nat × Record)
  cache : List (Nat × View)
  count : Nat
deriving DecidableEq

/-- One iteration of the transfer loop (lines 412-430) for the pair
`(name, target_ein)`: if `name` is in the source's names, remove it there,
then append it to the target's names, bump the count and drop the target's
cache entry unless the target already contains it; otherwise do nothing. -/
def transfer_step (ein : Nat) (ts : TransferState) (p : String × Nat) : TransferState :=
  let srcNames := ((alistFind ts.df ein).map Record.names).getD []
  if p.1 ∈ srcNames then
    let df' := alistUpdate ts.df ein (fun r => { r with names := r.names.erase p.1 })
    let tgtNames := ((alistFind df' p.2).map Record.names).getD []
    if p.1 ∈ tgtNames then { ts with df := df' }
    else
      { df := alistUpdate df' p.2 (fun r => { r with names := r.names ++ [p.1] })
        cache := alistErase ts.cache p.2
        count := ts.count + 1 }
  else ts

/-- The request pairs whose target EIN exists in the store
(`names_to_transfer`, lines 398-405), in request order. -/
def transferCandidates (df : List (Nat × Record)) (req : SaveRequest) :
    List (String × Nat) :=
  req.name_ein_mappings.filter (fun p => (alistFind df p.2).isSome)

/-- The dict `names_to_map` of pairs whose target EIN does not exist
(lines 406-408), built by dict assignment so a later duplicate key wins. -/
def pendingPairs (df : List (Nat × Record)) (req : SaveRequest) :
    List (String × Nat) :=
  (req.name_ein_mappings.filter (fun p => !(alistFind df p.2).isSome)).foldl
    (fun acc p => dictInsert acc p.1 p.2) []

/-- `request.new_name and request.new_name.strip()` (line 442): the request
carries a usable representative name. -/
def savedUseNew (req : SaveRequest) : Bool :=
  match req.new_name with
  | some nm => nm.trim != ""
  | none => false

/-- The representative stored by the save: `strip().upper()` of the request
name when usable (line 443), `pd.NA` otherwise (line 446). -/
def savedRep (req : SaveRequest) : Option String :=
  if savedUseNew req then req.new_name.map (fun nm => nm.trim.toUpper) else none

/-- The mutation body of `POST /ein/{ein}/save` (src/main.py lines
373-479), run once the EIN was found.  `persistOk` is the outcome of the
`save_to_disk` collaborator call; on success `save_to_disk` also clears the
entire cache (line 214).  The mutated state is returned in both outcomes,
mirroring the in-place mutation of the global dataframe. -/
def save_apply (persistOk : Bool) (s : SysState) (ein : Nat)
    (req : SaveRequest) : SysState × Except ApiError SaveResult :=
    -- line 387: full replacement of marked_names
    let df1 := alistUpdate s.df ein (fun r => { r with marked := req.marked_names })
    -- lines 390-392: read the existing mappings
    let existing := ((alistFind df1 ein).map Record.mappings).getD []
    -- lines 398-408: partition the request mapping by target existence
    let toTransfer := transferCandidates df1 req
    let toMap := pendingPairs df1 req
    -- lines 411-430: transfer loop
    let ts := toTransfer.foldl (transfer_step ein) ⟨df1, s.cache, 0⟩
    -- lines 436-439: merge pending pairs into the stored mappings
    let merged := dictUpdate existing toMap
    let df3 := alistUpdate ts.df ein (fun r => { r with mappings := merged })
    -- lines 442-447: representative name and edited set
    let df4 := alistUpdate df3 ein (fun r => { r with new_name := savedRep req })
    let edited' := if savedUseNew req then insert ein s.edited else s.edited.erase ein
    -- lines 449-452: recompute and store the source's completion status
    let status := classifyRecord ((alistFind df4 ein).getD ⟨[], [], [], none, none⟩)
    let df5 := alistUpdate df4 ein (fun r => { r with completion_status := some status })
    -- line 456: drop the source's cache entry
    let cache1 := alistErase ts.cache ein
    if persistOk then
      -- line 214: a successful save_to_disk clears the whole cache
      (⟨df5, edited', []⟩,
       Except.ok
         { total_names := (((alistFind df5 ein).map Record.names).getD []).length
           marked_count := req.marked_names.length
           new_name := ((alistFind df5 ein).map Record.new_name).getD none
           mappings_count := merged.length
           transferred_count := ts.count
           completion_status := status
           pending_reported := toMap.length })
    else
      -- lines 458-459: HTTP 500, the in-memory mutation is kept
      (⟨df5, edited', cache1⟩, Except.error ApiError.saveFailed)

/-- `POST /ein/{ein}/save` (src/main.py lines 361-479): 404 when the EIN is
absent (lines 368-371, before any mutation), otherwise run the mutation
body. -/
def save_ein_changes (persistOk : Bool) (s : SysState) (ein : Nat)
    (req : SaveRequest) : SysState × Except ApiError SaveResult :=
  if (alistFind s.df ein).isSome then save_apply persistOk s ein req
  else (s, Except.error ApiError.notFound)

/-- `load_working_file` (src/main.py lines 109-144) after parsing: install
the rows, derive `edited_eins` from the non-null `new_name` column, and
clear the cache (line 138). -/
def load_working_file (rows : List (Nat × Record)) : SysState :=
  { df := rows
    edited := ((rows.filter (fun p => p.2.new_name ≠ none)).map Prod.fst).toFinset
    cache := [] }

/-! ## Association-list lemmas -/

theorem alistFind_alistUpdate {β : Type _} (l : List (Nat × β)) (k : Nat) (f : β → β)
    (i : Nat) :
    alistFind (alistUpdate l k f) i =
      if i = k then (alistFind l k).map f else alistFind l i := by
  induction l with
  | nil => by_cases hik : i = k <;> simp [alistFind, alistUpdate, hik]
  | cons hd tl ih =>
    obtain ⟨j, r⟩ := hd
    by_cases hjk : j = k
    · subst hjk
      by_cases hji : j = i
      · subst hji
        simp [alistUpdate, alistFind]
      · simp [alistUpdate, alistFind, hji, Ne.symm hji]
    · by_cases hji : j = i
      · subst hji
        simp [alistUpdate, alistFind, hjk, Ne.symm hjk]
      · simp [alistUpdate, alistFind, hjk, hji, ih]

theorem alistFind_alistErase {β : Type _} (l : List (Nat × β)) (k i : Nat) :
    alistFind (alistErase l k) i = if i = k then none else alistFind l i := by
  induction l with
  | nil => by_cases hik : i = k <;> simp [alistFind, alistErase, hik]
  | cons hd tl ih =>
    obtain ⟨j, r⟩ := hd
    by_cases hjk : j = k
    · subst hjk
      by_cases hji : j = i
      · subst hji
        simpa [alistErase, alistFind] using ih
      · simp [alistErase, alistFind, hji, Ne.symm hji, ih]
    · by_cases hji : j = i
      · subst hji
        simp [alistErase, alistFind, hjk, Ne.symm hjk]
      · simp [alistErase, alistFind, hjk, hji, ih]

theorem alistFind_alistUpsert {β : Type _} (l : List (Nat × β)) (k : Nat) (v : β)
    (i : Nat) :
    alistFind (alistUpsert l k v) i = if i = k then some v else alistFind l i := by
  induction l with
  | nil =>
    by_cases hik : i = k
    · subst hik
      simp [alistUpsert, alistFind]
    · simp [alistUpsert, alistFind, hik, Ne.symm hik]
  | cons hd tl ih =>
    obtain ⟨j, r⟩ := hd
    by_cases hjk : j = k
    · subst hjk
      by_cases hji : j = i
      · subst hji
        simp [alistUpsert, alistFind]
      · simp [alistUpsert, alistFind, hji, Ne.symm hji]
    · by_cases hji : j = i
      · subst hji
        simp [alistUpsert, alistFind, hjk, Ne.symm hjk]
      · simp [alistUpsert, alistFind, hjk, hji, ih]

theorem alistFind_alistUpdate_self {β : Type _} (l : List (Nat × β)) (k : Nat)
    (f : β → β) :
    alistFind (alistUpdate l k f) k = (alistFind l k).map f := by
  rw [alistFind_alistUpdate, if_pos rfl]

/-- Updates keep the set of present keys. -/
theorem isSome_alistFind_alistUpdate {β : Type _} (l : List (Nat × β)) (k : Nat)
    (f : β → β) (i : Nat) :
    (alistFind (alistUpdate l k f) i).isSome = (alistFind l i).isSome := by
  rw [alistFind_alistUpdate]
  by_cases hik : i = k <;> simp [hik]

/-- A record update that keeps the names keeps every row's names. -/
theorem names_alistFind_alistUpdate (l : List (Nat × Record)) (k : Nat)
    (f : Record → Record) (hf : ∀ r, (f r).names = r.names) (i : Nat) :
    ((alistFind (alistUpdate l k f) i).map Record.names) =
      ((alistFind l i).map Record.names) := by
  rw [alistFind_alistUpdate]
  by_cases hik : i = k
  · subst hik
    cases alistFind l i <;> simp [hf]
  · simp [hik]

/-! ## Dict (string-keyed mapping) lemmas -/

def dictFind : List (String × Nat) → String → Option Nat
  | [], _ => none
  | (j, r) :: rest, k => if j = k then some r else dictFind rest k

theorem dictFind_dictInsert (m : List (String × Nat)) (k : String) (v : Nat)
    (i : String) :
    dictFind (dictInsert m k v) i = if i = k then some v else dictFind m i := by
  induction m with
  | nil =>
    by_cases hik : i = k
    · subst hik
      simp [dictInsert, dictFind]
    · simp [dictInsert, dictFind, hik, Ne.symm hik]
  | cons hd tl ih =>
    obtain ⟨j, r⟩ := hd
    by_cases hjk : j = k
    · subst hjk
      by_cases hji : j = i
      · subst hji
        simp [dictInsert, dictFind]
      · simp [dictInsert, dictFind, hji, Ne.symm hji]
    · by_cases hji : j = i
      · subst hji
        simp [dictInsert, dictFind, hjk, Ne.symm hjk]
      · simp [dictInsert, dictFind, hjk, hji, ih]

/-- Assigning a key its current value leaves a dict unchanged. -/
theorem dictInsert_self (m : List (String × Nat)) (k : String) (v : Nat)
    (h : dictFind m k = some v) : dictInsert m k v = m := by
  induction m with
  | nil => simp [dictFind] at h
  | cons hd tl ih =>
    obtain ⟨j, r⟩ := hd
    by_cases hjk : j = k
    · subst hjk
      simp [dictFind] at h
      simp [dictInsert, h]
    · simp [dictFind, hjk] at h
      simp [dictInsert, hjk, ih h]

theorem keys_dictInsert_mem (m : List (String × Nat)) (k : String) (v : Nat)
    (i : String) :
    i ∈ (dictInsert m k v).map Prod.fst ↔ i = k ∨ i ∈ m.map Prod.fst := by
  induction m with
  | nil => simp [dictInsert]
  | cons hd tl ih =>
    obtain ⟨j, r⟩ := hd
    by_cases hjk : j = k
    · subst hjk
      simp [dictInsert]
    · simp only [dictInsert, if_neg hjk, List.map_cons, List.mem_cons, ih]
      tauto

/-- A dict update leaves the keys not assigned by `new` untouched. -/
theorem dictFind_dictUpdate_not_mem (m new : List (String × Nat)) (k : String)
    (h : k ∉ new.map Prod.fst) : dictFind (dictUpdate m new) k = dictFind m k := by
  induction new generalizing m with
  | nil => rfl
  | cons hd tl ih =>
    obtain ⟨j, v⟩ := hd
    rw [List.map_cons] at h
    simp only [List.mem_cons, not_or] at h
    rw [dictUpdate]
    simp only [List.foldl_cons]
    rw [show List.foldl (fun acc p => dictInsert acc p.1 p.2) (dictInsert m j v) tl =
          dictUpdate (dictInsert m j v) tl from rfl]
    rw [ih _ h.2, dictFind_dictInsert]
    simp [h.1]

/-- After an update with a dict of distinct keys, each assigned key holds its
assigned value. -/
theorem dictFind_dictUpdate_mem (m new : List (String × Nat)) (k : String) (v : Nat)
    (hnd : (new.map Prod.fst).Nodup) (h : (k, v) ∈ new) :
    dictFind (dictUpdate m new) k = some v := by
  induction new generalizing m with
  | nil => simp at h
  | cons hd tl ih =>
    obtain ⟨j, w⟩ := hd
    rw [List.map_cons, List.nodup_cons] at hnd
    rcases List.mem_cons.mp h with heq | hmem
    · obtain ⟨rfl, rfl⟩ := Prod.mk.injEq .. ▸ heq
      rw [dictUpdate]
      simp only [List.foldl_cons]
      rw [show List.foldl (fun acc p => dictInsert acc p.1 p.2) (dictInsert m k v) tl =
            dictUpdate (dictInsert m k v) tl from rfl]
      rw [dictFind_dictUpdate_not_mem _ _ _ hnd.1, dictFind_dictInsert]
      simp
    · rw [dictUpdate]
      simp only [List.foldl_cons]
      exact ih _ hnd.2 hmem

/-- Updating with assignments that already hold is the identity. -/
theorem dictUpdate_self (m new : List (String × Nat))
    (h : ∀ p ∈ new, dictFind m p.1 = some p.2) : dictUpdate m new = m := by
  induction new generalizing m with
  | nil => rfl
  | cons hd tl ih =>
    rw [dictUpdate]
    simp only [List.foldl_cons]
    rw [dictInsert_self m hd.1 hd.2 (h hd (by simp))]
    exact ih m (fun p hp => h p (by simp [hp]))

/-- `dict.update` with a fixed distinct-keyed dict is idempotent. -/
theorem dictUpdate_idem (m new : List (String × Nat))
    (hnd : (new.map Prod.fst).Nodup) :
    dictUpdate (dictUpdate m new) new = dictUpdate m new :=
  dictUpdate_self _ _ (fun p hp => dictFind_dictUpdate_mem m new p.1 p.2 hnd hp)

/-- The keys of `pendingPairs` are distinct (it is built like a Python dict). -/
theorem nodup_keys_dictInsert (m : List (String × Nat)) (k : String) (v : Nat)
    (h : (m.map Prod.fst).Nodup) : ((dictInsert m k v).map Prod.fst).Nodup := by
  induction m with
  | nil => simp [dictInsert]
  | cons hd tl ih =>
    obtain ⟨j, r⟩ := hd
    rw [List.map_cons, List.nodup_cons] at h
    by_cases hjk : j = k
    · subst hjk
      have hstep : dictInsert ((j, r) :: tl) j v = (j, v) :: tl := by simp [dictInsert]
      rw [hstep, List.map_cons, List.nodup_cons]
      exact ⟨h.1, h.2⟩
    · simp only [dictInsert, if_neg hjk, List.map_cons, List.nodup_cons]
      refine ⟨fun hmem => ?_, ih h.2⟩
      rcases (keys_dictInsert_mem tl k v j).mp hmem with rfl | hmem'
      · exact hjk rfl
      · exact h.1 hmem'

theorem nodup_keys_pendingPairs (df : List (Nat × Record)) (req : SaveRequest) :
    ((pendingPairs df req).map Prod.fst).Nodup := by
  rw [pendingPairs]
  generalize req.name_ein_mappings.filter _ = l
  suffices h : ∀ (acc : List (String × Nat)), (acc.map Prod.fst).Nodup →
      ((l.foldl (fun acc p => dictInsert acc p.1 p.2) acc).map Prod.fst).Nodup by
    exact h [] (by simp)
  induction l with
  | nil => intro acc hacc; simpa using hacc
  | cons hd tl ih =>
    intro acc hacc
    simp only [List.foldl_cons]
    exact ih _ (nodup_keys_dictInsert _ _ _ hacc)

/-! ## Closed forms for the transfer loop

The transfer loop of `save_ein_changes` is a left fold of `transfer_step`
over the candidate pairs.  The following functions give the final source
names, the names appended to each target and the transfer count directly in
terms of the state seen at loop entry; `transfer_fold_spec` below proves
them equal to the fold. -/

/-- The source record's names after the loop: the names that are not a key
of any candidate pair survive in order, then each self-targeting candidate
name that was present is re-appended, in candidate order. -/
def srcAfter (ein : Nat) (l : List String) (T : List (String × Nat)) : List String :=
  l.filter (fun m => decide (m ∉ T.map Prod.fst)) ++
    (T.filter (fun p => decide (p.2 = ein ∧ p.1 ∈ l))).map Prod.fst

/-- The names appended to the target `j ≠ ein` during the loop, in candidate
order: candidates targeting `j` whose name was in the source and not already
in the target. -/
def tgtAppends (j : Nat) (l tl : List String) (T : List (String × Nat)) : List String :=
  (T.filter (fun p => decide (p.2 = j ∧ p.1 ∈ l ∧ p.1 ∉ tl))).map Prod.fst

/-- Whether a candidate pair bumps `transferred_count`, in terms of the
loop-entry state: its name is in the source's names, and either it targets
the source itself or the target does not already hold the name. -/
def countCond (ein : Nat) (df : List (Nat × Record)) (l : List String)
    (p : String × Nat) : Bool :=
  decide (p.1 ∈ l ∧
    (p.2 = ein ∨ p.1 ∉ ((alistFind df p.2).map Record.names).getD []))

theorem srcAfter_nil (ein : Nat) (l : List String) : srcAfter ein l [] = l := by
  simp [srcAfter]

/-- A candidate whose name is not in the source contributes nothing. -/
theorem srcAfter_cons_not_mem (ein : Nat) (l : List String) (n : String) (t : Nat)
    (R : List (String × Nat)) (hn : n ∉ l) :
    srcAfter ein l ((n, t) :: R) = srcAfter ein l R := by
  unfold srcAfter
  congr 1
  · refine List.filter_congr (fun m hm => ?_)
    have hmn : m ≠ n := fun h => hn (h ▸ hm)
    rw [decide_eq_decide]
    simp [hmn]
  · rw [List.filter_cons]
    simp [hn]

/-- A self-targeting candidate whose name is present moves it to the end. -/
theorem srcAfter_cons_self (ein : Nat) (l : List String) (n : String)
    (R : List (String × Nat)) (hn : n ∈ l) (hnd : l.Nodup)
    (hk : n ∉ R.map Prod.fst) :
    srcAfter ein (l.erase n ++ [n]) R = srcAfter ein l ((n, ein) :: R) := by
  have hkeys : ∀ p ∈ R, p.1 ≠ n := fun p hp h => hk (List.mem_map.mpr ⟨p, hp, h⟩)
  unfold srcAfter
  have e1 : List.filter (fun m => decide (m ∉ R.map Prod.fst)) (l.erase n) =
      List.filter (fun m => decide (m ∉ List.map Prod.fst ((n, ein) :: R))) l := by
    rw [hnd.erase_eq_filter n, List.filter_filter]
    refine List.filter_congr (fun m hm => ?_)
    rw [List.map_cons, Bool.eq_iff_iff]
    simp only [Bool.and_eq_true, decide_eq_true_eq, bne_iff_ne, List.mem_cons, not_or]
    tauto
  have e2 : List.filter (fun p => decide (p.2 = ein ∧ p.1 ∈ l.erase n ++ [n])) R =
      List.filter (fun p => decide (p.2 = ein ∧ p.1 ∈ l)) R := by
    refine List.filter_congr (fun p hp => ?_)
    have hpn : p.1 ≠ n := hkeys p hp
    rw [decide_eq_decide, List.mem_append, List.mem_erase_of_ne hpn]
    simp [hpn]
  have e3 : List.filter (fun m => decide (m ∉ R.map Prod.fst)) [n] = [n] := by
    simp [hk]
  rw [List.filter_append, e1, e2, e3, List.filter_cons]
  simp [hn, List.append_assoc]

/-- A candidate for another existing target removes a present name. -/
theorem srcAfter_cons_other (ein : Nat) (l : List String) (n : String) (t : Nat)
    (R : List (String × Nat)) (hn : n ∈ l) (hnd : l.Nodup)
    (hk : n ∉ R.map Prod.fst) (ht : t ≠ ein) :
    srcAfter ein (l.erase n) R = srcAfter ein l ((n, t) :: R) := by
  have hkeys : ∀ p ∈ R, p.1 ≠ n := fun p hp h => hk (List.mem_map.mpr ⟨p, hp, h⟩)
  unfold srcAfter
  have e1 : List.filter (fun m => decide (m ∉ R.map Prod.fst)) (l.erase n) =
      List.filter (fun m => decide (m ∉ List.map Prod.fst ((n, t) :: R))) l := by
    rw [hnd.erase_eq_filter n, List.filter_filter]
    refine List.filter_congr (fun m hm => ?_)
    rw [List.map_cons, Bool.eq_iff_iff]
    simp only [Bool.and_eq_true, decide_eq_true_eq, bne_iff_ne, List.mem_cons, not_or]
    tauto
  have e2 : List.filter (fun p => decide (p.2 = ein ∧ p.1 ∈ l.erase n)) R =
      List.filter (fun p => decide (p.2 = ein ∧ p.1 ∈ l)) R := by
    refine List.filter_congr (fun p hp => ?_)
    have hpn : p.1 ≠ n := hkeys p hp
    rw [decide_eq_decide, List.mem_erase_of_ne hpn]
  rw [e1, e2, List.filter_cons]
  simp [ht]

/-- One step of the `tgtAppends` closed form. -/
theorem tgtAppends_cons (j : Nat) (l tl : List String) (n : String) (t : Nat)
    (R : List (String × Nat)) :
    tgtAppends j l tl ((n, t) :: R) =
      (if t = j ∧ n ∈ l ∧ n ∉ tl then [n] else []) ++ tgtAppends j l tl R := by
  unfold tgtAppends
  rw [List.filter_cons]
  by_cases h : t = j ∧ n ∈ l ∧ n ∉ tl <;> simp [h]

/-- `tgtAppends` only looks at memberships of the candidates' names. -/
theorem tgtAppends_congr (j : Nat) (l₁ l₂ tl₁ tl₂ : List String)
    (R : List (String × Nat))
    (h : ∀ p ∈ R, (p.1 ∈ l₁ ↔ p.1 ∈ l₂) ∧ (p.1 ∈ tl₁ ↔ p.1 ∈ tl₂)) :
    tgtAppends j l₁ tl₁ R = tgtAppends j l₂ tl₂ R := by
  unfold tgtAppends
  congr 1
  refine List.filter_congr (fun p hp => ?_)
  rw [decide_eq_decide]
  have := h p hp
  tauto

/-- `countP` only looks at the per-pair condition. -/
theorem countP_congr_mem {α : Type _} (P Q : α → Bool) (l : List α)
    (h : ∀ x ∈ l, P x = Q x) : l.countP P = l.countP Q := by
  rw [List.countP_eq_length_filter, List.countP_eq_length_filter, List.filter_congr h]

/-- `any` only looks at the per-element condition. -/
theorem any_congr_mem {α : Type _} (P Q : α → Bool) (l : List α)
    (h : ∀ x ∈ l, P x = Q x) : l.any P = l.any Q := by
  rw [Bool.eq_iff_iff]
  simp only [List.any_eq_true]
  constructor
  · rintro ⟨x, hx, hPx⟩
    exact ⟨x, hx, h x hx ▸ hPx⟩
  · rintro ⟨x, hx, hQx⟩
    exact ⟨x, hx, (h x hx).symm ▸ hQx⟩

theorem alistUpdate_alistUpdate_same {β : Type _} (l : List (Nat × β)) (k : Nat)
    (f g : β → β) :
    alistUpdate (alistUpdate l k f) k g = alistUpdate l k (fun b => g (f b)) := by
  induction l with
  | nil => rfl
  | cons hd tl ih =>
    obtain ⟨j, r⟩ := hd
    by_cases hjk : j = k
    · subst hjk
      simp [alistUpdate]
    · simp [alistUpdate, hjk, ih]

theorem nodup_erase_append_self (l : List String) (n : String) (hnd : l.Nodup) :
    (l.erase n ++ [n]).Nodup := by
  rw [List.nodup_append]
  refine ⟨hnd.erase n, List.nodup_singleton n, ?_⟩
  intro a ha hb
  rw [List.mem_singleton] at hb
  subst hb
  exact hnd.not_mem_erase ha

theorem mem_erase_append_self (l : List String) (n m : String) (hm : m ≠ n) :
    m ∈ l.erase n ++ [n] ↔ m ∈ l := by
  rw [List.mem_append, List.mem_singleton, List.mem_erase_of_ne hm]
  simp [hm]

/-- `countCond` only depends on the name's membership in the source names
and (for a foreign target) in the target's names. -/
theorem countCond_congr (ein : Nat) (df df' : List (Nat × Record))
    (l l' : List String) (p : String × Nat)
    (hl : p.1 ∈ l' ↔ p.1 ∈ l)
    (hdf : p.2 ≠ ein → (p.1 ∈ ((alistFind df' p.2).map Record.names).getD [] ↔
        p.1 ∈ ((alistFind df p.2).map Record.names).getD [])) :
    countCond ein df' l' p = countCond ein df l p := by
  unfold countCond
  rw [Bool.eq_iff_iff]
  simp only [decide_eq_true_eq]
  by_cases hpe : p.2 = ein
  · simp [hpe, hl]
  · simp [hpe, hl, hdf hpe]

/-! ### The four outcomes of one transfer iteration -/

theorem transfer_step_skip (ein : Nat) (ts : TransferState) (n : String) (t : Nat)
    (r₀ : Record) (hsrc : alistFind ts.df ein = some r₀) (hn : n ∉ r₀.names) :
    transfer_step ein ts (n, t) = ts := by
  unfold transfer_step
  simp [hsrc, hn]

theorem transfer_step_self (ein : Nat) (ts : TransferState) (n : String)
    (r₀ : Record) (hsrc : alistFind ts.df ein = some r₀) (hn : n ∈ r₀.names)
    (hnd : r₀.names.Nodup) :
    transfer_step ein ts (n, ein) =
      ⟨alistUpdate ts.df ein (fun r => { r with names := r.names.erase n ++ [n] }),
       alistErase ts.cache ein, ts.count + 1⟩ := by
  unfold transfer_step
  simp only [hsrc, Option.map_some', Option.getD_some]
  rw [if_pos hn]
  simp only [alistFind_alistUpdate, eq_self_iff_true, if_true, hsrc, Option.map_some',
    Option.getD_some]
  rw [if_neg hnd.not_mem_erase, alistUpdate_alistUpdate_same]

theorem transfer_step_other_dup (ein : Nat) (ts : TransferState) (n : String)
    (t : Nat) (r₀ rt : Record) (hsrc : alistFind ts.df ein = some r₀)
    (hn : n ∈ r₀.names) (ht : t ≠ ein) (hrt : alistFind ts.df t = some rt)
    (hmem : n ∈ rt.names) :
    transfer_step ein ts (n, t) =
      ⟨alistUpdate ts.df ein (fun r => { r with names := r.names.erase n }),
       ts.cache, ts.count⟩ := by
  unfold transfer_step
  simp only [hsrc, Option.map_some', Option.getD_some]
  rw [if_pos hn]
  simp only [alistFind_alistUpdate, if_neg ht, hrt, Option.map_some', Option.getD_some]
  rw [if_pos hmem]

theorem transfer_step_other_new (ein : Nat) (ts : TransferState) (n : String)
    (t : Nat) (r₀ rt : Record) (hsrc : alistFind ts.df ein = some r₀)
    (hn : n ∈ r₀.names) (ht : t ≠ ein) (hrt : alistFind ts.df t = some rt)
    (hmem : n ∉ rt.names) :
    transfer_step ein ts (n, t) =
      ⟨alistUpdate (alistUpdate ts.df ein (fun r => { r with names := r.names.erase n }))
          t (fun r => { r with names := r.names ++ [n] }),
       alistErase ts.cache t, ts.count + 1⟩ := by
  unfold transfer_step
  simp only [hsrc, Option.map_some', Option.getD_some]
  rw [if_pos hn]
  simp only [alistFind_alistUpdate, if_neg ht, hrt, Option.map_some', Option.getD_some]
  rw [if_neg hmem]

/-- Characterization of the whole transfer loop (src/main.py lines 411-430)
as a left fold of `transfer_step`: final source names, per-target appends,
final count and cache pops, all in terms of the state at loop entry. -/
theorem transfer_fold_spec (ein : Nat) (T : List (String × Nat)) :
    ∀ (ts : TransferState) (r₀ : Record),
    alistFind ts.df ein = some r₀ →
    r₀.names.Nodup →
    (∀ p ∈ T, (alistFind ts.df p.2).isSome) →
    (T.map Prod.fst).Nodup →
    (alistFind (T.foldl (transfer_step ein) ts).df ein =
        some { r₀ with names := srcAfter ein r₀.names T }) ∧
    (∀ j, j ≠ ein → alistFind (T.foldl (transfer_step ein) ts).df j =
        (alistFind ts.df j).map (fun rt =>
          { rt with names := rt.names ++ tgtAppends j r₀.names rt.names T })) ∧
    ((T.foldl (transfer_step ein) ts).count =
        ts.count + T.countP (countCond ein ts.df r₀.names)) ∧
    (∀ j, alistFind (T.foldl (transfer_step ein) ts).cache j =
        if T.any (fun p => p.2 == j && countCond ein ts.df r₀.names p) then none
        else alistFind ts.cache j) := by
  induction T with
  | nil =>
    intro ts r₀ hsrc hnd htg hkeys
    refine ⟨by simpa [srcAfter_nil] using hsrc, ?_, by simp, by intro j; simp⟩
    intro j hj
    cases hr : alistFind ts.df j <;> simp [tgtAppends, hr]
  | cons p R ih =>
    obtain ⟨n, t⟩ := p
    intro ts r₀ hsrc hnd htg hkeys
    rw [List.map_cons, List.nodup_cons] at hkeys
    obtain ⟨hkn, hkR⟩ := hkeys
    have htgR : ∀ q ∈ R, (alistFind ts.df q.2).isSome :=
      fun q hq => htg q (List.mem_cons_of_mem _ hq)
    have htgt : (alistFind ts.df t).isSome := htg (n, t) (List.mem_cons_self _ _)
    obtain ⟨rt, hrt⟩ := Option.isSome_iff_exists.mp htgt
    rw [List.foldl_cons]
    by_cases hn : n ∈ r₀.names
    · by_cases htein : t = ein
      · -- self transfer: erase then re-append at the end, count bumps
        rw [htein] at hrt ⊢
        rw [transfer_step_self ein ts n r₀ hsrc hn hnd]
        have hsrc' : alistFind
            (alistUpdate ts.df ein (fun r => { r with names := r.names.erase n ++ [n] })) ein =
            some { r₀ with names := r₀.names.erase n ++ [n] } := by
          rw [alistFind_alistUpdate, if_pos rfl, hsrc]
          rfl
        have hnd' : (r₀.names.erase n ++ [n]).Nodup := nodup_erase_append_self _ _ hnd
        have htgR' : ∀ q ∈ R, (alistFind
            (alistUpdate ts.df ein (fun r => { r with names := r.names.erase n ++ [n] }))
            q.2).isSome := by
          intro q hq
          rw [isSome_alistFind_alistUpdate]
          exact htgR q hq
        obtain ⟨c1, c2, c3, c4⟩ :=
          ih ⟨alistUpdate ts.df ein (fun r => { r with names := r.names.erase n ++ [n] }),
              alistErase ts.cache ein, ts.count + 1⟩
            { r₀ with names := r₀.names.erase n ++ [n] } hsrc' hnd' htgR' hkR
        dsimp only at c1 c2 c3 c4
        have hcc : countCond ein ts.df r₀.names (n, ein) = true := by
          unfold countCond
          simp [hn]
        have hcongrR : ∀ q ∈ R,
            countCond ein
              (alistUpdate ts.df ein (fun r => { r with names := r.names.erase n ++ [n] }))
              (r₀.names.erase n ++ [n]) q = countCond ein ts.df r₀.names q := by
          intro q hq
          have hqn : q.1 ≠ n := fun h => hkn (List.mem_map.mpr ⟨q, hq, h⟩)
          refine countCond_congr _ _ _ _ _ _ (mem_erase_append_self _ _ _ hqn) ?_
          intro hqe
          rw [alistFind_alistUpdate, if_neg hqe]
        refine ⟨?_, ?_, ?_, ?_⟩
        · rw [c1, srcAfter_cons_self ein r₀.names n R hn hnd hkn]
        · intro j hj
          rw [c2 j hj, alistFind_alistUpdate, if_neg hj]
          cases hfj : alistFind ts.df j with
          | none => rfl
          | some rtj =>
            simp only [Option.map_some']
            have hhead : ¬(ein = j ∧ n ∈ r₀.names ∧ n ∉ rtj.names) :=
              fun h => hj h.1.symm
            rw [tgtAppends_cons, if_neg hhead, List.nil_append]
            have := tgtAppends_congr j (r₀.names.erase n ++ [n]) r₀.names
              rtj.names rtj.names R (by
                intro q hq
                have hqn : q.1 ≠ n := fun h => hkn (List.mem_map.mpr ⟨q, hq, h⟩)
                exact ⟨mem_erase_append_self _ _ _ hqn, Iff.rfl⟩)
            rw [this]
        · rw [c3, List.countP_cons, countP_congr_mem _ _ R hcongrR, hcc]
          simp only [if_pos]
          omega
        · intro j
          rw [c4 j,
            any_congr_mem _ (fun q => q.2 == j && countCond ein ts.df r₀.names q) R
              (by intro q hq; rw [hcongrR q hq]),
            List.any_cons, alistFind_alistErase]
          by_cases hje : j = ein
          · rw [hje]
            simp [hcc]
          · have hbeq : (ein == j) = false := beq_eq_false_iff_ne.mpr (Ne.symm hje)
            rw [if_neg hje, hbeq, Bool.false_and, Bool.false_or]
      · by_cases hmem : n ∈ rt.names
        · -- target exists elsewhere and already holds the name: erase only
          rw [transfer_step_other_dup ein ts n t r₀ rt hsrc hn htein hrt hmem]
          have hsrc' : alistFind
              (alistUpdate ts.df ein (fun r => { r with names := r.names.erase n })) ein =
              some { r₀ with names := r₀.names.erase n } := by
            rw [alistFind_alistUpdate, if_pos rfl, hsrc]
            rfl
          have htgR' : ∀ q ∈ R, (alistFind
              (alistUpdate ts.df ein (fun r => { r with names := r.names.erase n }))
              q.2).isSome := by
            intro q hq
            rw [isSome_alistFind_alistUpdate]
            exact htgR q hq
          obtain ⟨c1, c2, c3, c4⟩ :=
            ih ⟨alistUpdate ts.df ein (fun r => { r with names := r.names.erase n }),
                ts.cache, ts.count⟩
              { r₀ with names := r₀.names.erase n } hsrc' (hnd.erase n) htgR' hkR
          dsimp only at c1 c2 c3 c4
          have hcc : countCond ein ts.df r₀.names (n, t) = false := by
            unfold countCond
            simp [hn, htein, hrt, hmem]
          have hcongrR : ∀ q ∈ R,
              countCond ein
                (alistUpdate ts.df ein (fun r => { r with names := r.names.erase n }))
                (r₀.names.erase n) q = countCond ein ts.df r₀.names q := by
            intro q hq
            have hqn : q.1 ≠ n := fun h => hkn (List.mem_map.mpr ⟨q, hq, h⟩)
            refine countCond_congr _ _ _ _ _ _ (List.mem_erase_of_ne hqn) ?_
            intro hqe
            rw [alistFind_alistUpdate, if_neg hqe]
          refine ⟨?_, ?_, ?_, ?_⟩
          · rw [c1, srcAfter_cons_other ein r₀.names n t R hn hnd hkn htein]
          · intro j hj
            rw [c2 j hj, alistFind_alistUpdate, if_neg hj]
            cases hfj : alistFind ts.df j with
            | none => rfl
            | some rtj =>
              simp only [Option.map_some']
              have hhead : ¬(t = j ∧ n ∈ r₀.names ∧ n ∉ rtj.names) := by
                rintro ⟨rfl, -, h3⟩
                rw [hrt] at hfj
                cases hfj
                exact h3 hmem
              rw [tgtAppends_cons, if_neg hhead, List.nil_append]
              have := tgtAppends_congr j (r₀.names.erase n) r₀.names
                rtj.names rtj.names R (by
                  intro q hq
                  have hqn : q.1 ≠ n := fun h => hkn (List.mem_map.mpr ⟨q, hq, h⟩)
                  exact ⟨List.mem_erase_of_ne hqn, Iff.rfl⟩)
              rw [this]
          · rw [c3, List.countP_cons, countP_congr_mem _ _ R hcongrR, hcc]
            simp
          · intro j
            rw [c4 j,
              any_congr_mem _ (fun q => q.2 == j && countCond ein ts.df r₀.names q) R
                (by intro q hq; rw [hcongrR q hq]),
              List.any_cons, hcc]
            simp only [Bool.and_false, Bool.false_or]
        · -- genuine transfer: erase from source, append to target, count bumps
          rw [transfer_step_other_new ein ts n t r₀ rt hsrc hn htein hrt hmem]
          have hein_t : ¬ein = t := fun h => htein h.symm
          have hsrc' : alistFind
              (alistUpdate
                (alistUpdate ts.df ein (fun r => { r with names := r.names.erase n }))
                t (fun r => { r with names := r.names ++ [n] })) ein =
              some { r₀ with names := r₀.names.erase n } := by
            rw [alistFind_alistUpdate, if_neg hein_t, alistFind_alistUpdate, if_pos rfl, hsrc]
            rfl
          have hfind'' : ∀ j, alistFind
              (alistUpdate
                (alistUpdate ts.df ein (fun r => { r with names := r.names.erase n }))
                t (fun r => { r with names := r.names ++ [n] })) j =
              if j = t then some { rt with names := rt.names ++ [n] }
              else if j = ein then some { r₀ with names := r₀.names.erase n }
              else alistFind ts.df j := by
            intro j
            rw [alistFind_alistUpdate]
            by_cases hjt : j = t
            · rw [if_pos hjt, if_pos hjt, alistFind_alistUpdate, if_neg htein, hrt]
              rfl
            · rw [if_neg hjt, if_neg hjt, alistFind_alistUpdate]
              by_cases hje : j = ein
              · rw [if_pos hje, if_pos hje, hsrc]
                rfl
              · rw [if_neg hje, if_neg hje]
          have htgR' : ∀ q ∈ R, (alistFind
              (alistUpdate
                (alistUpdate ts.df ein (fun r => { r with names := r.names.erase n }))
                t (fun r => { r with names := r.names ++ [n] })) q.2).isSome := by
            intro q hq
            rw [isSome_alistFind_alistUpdate, isSome_alistFind_alistUpdate]
            exact htgR q hq
          obtain ⟨c1, c2, c3, c4⟩ :=
            ih ⟨alistUpdate
                  (alistUpdate ts.df ein (fun r => { r with names := r.names.erase n }))
                  t (fun r => { r with names := r.names ++ [n] }),
                alistErase ts.cache t, ts.count + 1⟩
              { r₀ with names := r₀.names.erase n } hsrc' (hnd.erase n) htgR' hkR
          dsimp only at c1 c2 c3 c4
          have hcc : countCond ein ts.df r₀.names (n, t) = true := by
            unfold countCond
            simp [hn, htein, hrt, hmem]
          have hcongrR : ∀ q ∈ R,
              countCond ein
                (alistUpdate
                  (alistUpdate ts.df ein (fun r => { r with names := r.names.erase n }))
                  t (fun r => { r with names := r.names ++ [n] }))
                (r₀.names.erase n) q = countCond ein ts.df r₀.names q := by
            intro q hq
            have hqn : q.1 ≠ n := fun h => hkn (List.mem_map.mpr ⟨q, hq, h⟩)
            refine countCond_congr _ _ _ _ _ _ (List.mem_erase_of_ne hqn) ?_
            intro hqe
            rw [hfind'' q.2, if_neg hqe]
            by_cases hqt : q.2 = t
            · rw [if_pos hqt, hqt, hrt]
              simp [hqn]
            · rw [if_neg hqt]
          refine ⟨?_, ?_, ?_, ?_⟩
          · rw [c1, srcAfter_cons_other ein r₀.names n t R hn hnd hkn htein]
          · intro j hj
            rw [c2 j hj, hfind'' j, if_neg hj]
            by_cases hjt : j = t
            · rw [if_pos hjt, hjt, hrt]
              simp only [Option.map_some']
              have hhead : t = t ∧ n ∈ r₀.names ∧ n ∉ rt.names := ⟨rfl, hn, hmem⟩
              rw [tgtAppends_cons, if_pos hhead]
              have := tgtAppends_congr t (r₀.names.erase n) r₀.names
                (rt.names ++ [n]) rt.names R (by
                  intro q hq
                  have hqn : q.1 ≠ n := fun h => hkn (List.mem_map.mpr ⟨q, hq, h⟩)
                  refine ⟨List.mem_erase_of_ne hqn, ?_⟩
                  rw [List.mem_append, List.mem_singleton]
                  simp [hqn])
              rw [this, List.append_assoc]
            · rw [if_neg hjt]
              cases hfj : alistFind ts.df j with
              | none => rfl
              | some rtj =>
                simp only [Option.map_some']
                have hhead : ¬(t = j ∧ n ∈ r₀.names ∧ n ∉ rtj.names) := by
                  rintro ⟨rfl, -, -⟩
                  exact hjt rfl
                rw [tgtAppends_cons, if_neg hhead, List.nil_append]
                have := tgtAppends_congr j (r₀.names.erase n) r₀.names
                  rtj.names rtj.names R (by
                    intro q hq
                    have hqn : q.1 ≠ n := fun h => hkn (List.mem_map.mpr ⟨q, hq, h⟩)
                    exact ⟨List.mem_erase_of_ne hqn, Iff.rfl⟩)
                rw [this]
          · rw [c3, List.countP_cons, countP_congr_mem _ _ R hcongrR, hcc]
            simp only [if_pos]
            omega
          · intro j
            rw [c4 j,
              any_congr_mem _ (fun q => q.2 == j && countCond ein ts.df r₀.names q) R
                (by intro q hq; rw [hcongrR q hq]),
              List.any_cons, alistFind_alistErase, hcc]
            by_cases hjt : j = t
            · rw [hjt]
              simp
            · have hbeq : (t == j) = false := beq_eq_false_iff_ne.mpr (Ne.symm hjt)
              rw [if_neg hjt, hbeq, Bool.false_and, Bool.false_or]
    · -- the name is not in the source's names: the pair is skipped
      rw [transfer_step_skip ein ts n t r₀ hsrc hn]
      obtain ⟨c1, c2, c3, c4⟩ := ih ts r₀ hsrc hnd htgR hkR
      have hcc : countCond ein ts.df r₀.names (n, t) = false := by
        unfold countCond
        simp [hn]
      refine ⟨?_, ?_, ?_, ?_⟩
      · rw [c1, srcAfter_cons_not_mem ein r₀.names n t R hn]
      · intro j hj
        rw [c2 j hj]
        cases hfj : alistFind ts.df j with
        | none => rfl
        | some rtj =>
          simp only [Option.map_some']
          have hhead : ¬(t = j ∧ n ∈ r₀.names ∧ n ∉ rtj.names) := fun h => hn h.2.1
          rw [tgtAppends_cons, if_neg hhead, List.nil_append]
      · rw [c3, List.countP_cons, hcc]
        simp
      · intro j
        rw [c4 j, List.any_cons, hcc]
        rw [Bool.and_false, Bool.false_or]

/-! ## Membership and idempotence properties of the closed forms -/

/-- A name that is not a candidate key keeps its source membership. -/
theorem mem_srcAfter_of_not_key (ein : Nat) (l : List String)
    (T : List (String × Nat)) (m : String) (hm : m ∉ T.map Prod.fst) :
    m ∈ srcAfter ein l T ↔ m ∈ l := by
  unfold srcAfter
  rw [List.mem_append]
  constructor
  · rintro (h | h)
    · exact (List.mem_filter.mp h).1
    · exfalso
      obtain ⟨p, hp, rfl⟩ := List.mem_map.mp h
      exact hm (List.mem_map.mpr ⟨p, (List.mem_filter.mp hp).1, rfl⟩)
  · intro h
    exact Or.inl (List.mem_filter.mpr ⟨h, by simp [hm]⟩)

/-- A candidate's name survives in the source exactly when its pair targets
the source itself and the name was present. -/
theorem mem_srcAfter_key (ein : Nat) (l : List String) (T : List (String × Nat))
    (n : String) (t : Nat) (hmem : (n, t) ∈ T) (hkeys : (T.map Prod.fst).Nodup) :
    n ∈ srcAfter ein l T ↔ (t = ein ∧ n ∈ l) := by
  unfold srcAfter
  rw [List.mem_append]
  constructor
  · rintro (h | h)
    · exfalso
      have hk : n ∈ T.map Prod.fst := List.mem_map.mpr ⟨(n, t), hmem, rfl⟩
      have := (List.mem_filter.mp h).2
      simp [hk] at this
    · obtain ⟨p, hp, hpn⟩ := List.mem_map.mp h
      obtain ⟨hpT, hc⟩ := List.mem_filter.mp hp
      have hpeq : p = (n, t) :=
        List.inj_on_of_nodup_map hkeys hpT hmem (by simpa using hpn)
      subst hpeq
      simp only [decide_eq_true_eq] at hc
      exact ⟨hc.1, hc.2⟩
  · rintro ⟨ht, hnl⟩
    exact Or.inr (List.mem_map.mpr
      ⟨(n, t), List.mem_filter.mpr ⟨hmem, by simp [ht, hnl]⟩, rfl⟩)

/-- The transfer loop keeps the source's names duplicate-free. -/
theorem srcAfter_nodup (ein : Nat) (l : List String) (T : List (String × Nat))
    (hnd : l.Nodup) (hkeys : (T.map Prod.fst).Nodup) : (srcAfter ein l T).Nodup := by
  unfold srcAfter
  rw [List.nodup_append]
  refine ⟨hnd.filter _, ?_, ?_⟩
  · exact hkeys.sublist ((List.filter_sublist T).map Prod.fst)
  · intro a ha hb
    obtain ⟨p, hp, rfl⟩ := List.mem_map.mp hb
    have hk : p.1 ∈ T.map Prod.fst := List.mem_map.mpr ⟨p, (List.mem_filter.mp hp).1, rfl⟩
    have := (List.mem_filter.mp ha).2
    simp [hk] at this

/-- Replaying the same transfer loop on its own result changes nothing. -/
theorem srcAfter_idem (ein : Nat) (l : List String) (T : List (String × Nat))
    (hnd : l.Nodup) (hkeys : (T.map Prod.fst).Nodup) :
    srcAfter ein (srcAfter ein l T) T = srcAfter ein l T := by
  have e1 : (srcAfter ein l T).filter (fun m => decide (m ∉ T.map Prod.fst)) =
      l.filter (fun m => decide (m ∉ T.map Prod.fst)) := by
    unfold srcAfter
    rw [List.filter_append]
    have hA : (l.filter (fun m => decide (m ∉ T.map Prod.fst))).filter
        (fun m => decide (m ∉ T.map Prod.fst)) =
        l.filter (fun m => decide (m ∉ T.map Prod.fst)) :=
      List.filter_eq_self.mpr (fun a ha => (List.mem_filter.mp ha).2)
    have hB : (((T.filter (fun p => decide (p.2 = ein ∧ p.1 ∈ l))).map Prod.fst).filter
        (fun m => decide (m ∉ T.map Prod.fst))) = [] := by
      rw [List.filter_eq_nil_iff]
      intro a ha
      obtain ⟨p, hp, rfl⟩ := List.mem_map.mp ha
      have hk : p.1 ∈ T.map Prod.fst :=
        List.mem_map.mpr ⟨p, (List.mem_filter.mp hp).1, rfl⟩
      simp [hk]
    rw [hA, hB, List.append_nil]
  have e2 : T.filter (fun p => decide (p.2 = ein ∧ p.1 ∈ srcAfter ein l T)) =
      T.filter (fun p => decide (p.2 = ein ∧ p.1 ∈ l)) := by
    refine List.filter_congr (fun p hp => ?_)
    rw [decide_eq_decide]
    have hkey := mem_srcAfter_key ein l T p.1 p.2 hp hkeys
    constructor
    · rintro ⟨h1, h2⟩
      exact ⟨h1, (hkey.mp h2).2⟩
    · rintro ⟨h1, h2⟩
      exact ⟨h1, hkey.mpr ⟨h1, h2⟩⟩
  nth_rewrite 1 [srcAfter]
  rw [e1, e2]
  rfl

/-- Elements of `tgtAppends`. -/
theorem mem_tgtAppends (j : Nat) (l tl : List String) (T : List (String × Nat))
    (a : String) :
    a ∈ tgtAppends j l tl T ↔ ∃ p ∈ T, p.2 = j ∧ p.1 ∈ l ∧ p.1 ∉ tl ∧ p.1 = a := by
  unfold tgtAppends
  rw [List.mem_map]
  constructor
  · rintro ⟨p, hp, rfl⟩
    obtain ⟨hpT, hc⟩ := List.mem_filter.mp hp
    simp only [decide_eq_true_eq] at hc
    exact ⟨p, hpT, hc.1, hc.2.1, hc.2.2, rfl⟩
  · rintro ⟨p, hpT, h1, h2, h3, rfl⟩
    exact ⟨p, List.mem_filter.mpr ⟨hpT, by simp [h1, h2, h3]⟩, rfl⟩

/-- When no candidate can append to `j`, the target's names are unchanged. -/
theorem tgtAppends_eq_nil (j : Nat) (l tl : List String) (T : List (String × Nat))
    (h : ∀ p ∈ T, ¬(p.2 = j ∧ p.1 ∈ l ∧ p.1 ∉ tl)) : tgtAppends j l tl T = [] := by
  unfold tgtAppends
  rw [List.filter_eq_nil_iff.mpr (fun p hp => by simpa using h p hp)]
  rfl

/-! ## End-to-end characterization of `save_ein_changes` -/

/-- The source record after a successful lookup in `save_ein_changes`, in
terms of the state at call time. -/
def finalSourceRecord (s : SysState) (ein : Nat) (req : SaveRequest)
    (r₀ : Record) : Record :=
  { names := srcAfter ein r₀.names (transferCandidates s.df req)
    marked := req.marked_names
    mappings := dictUpdate r₀.mappings (pendingPairs s.df req)
    new_name := savedRep req
    completion_status := some (calculate_completion_status
      (srcAfter ein r₀.names (transferCandidates s.df req)) req.marked_names
      (dictUpdate r₀.mappings (pendingPairs s.df req))) }

/-- The response of a successful `save_ein_changes`, in terms of the state
at call time. -/
def specSaveResult (s : SysState) (ein : Nat) (req : SaveRequest)
    (r₀ : Record) : SaveResult :=
  { total_names := (finalSourceRecord s ein req r₀).names.length
    marked_count := req.marked_names.length
    new_name := savedRep req
    mappings_count := (finalSourceRecord s ein req r₀).mappings.length
    transferred_count :=
      (transferCandidates s.df req).countP (countCond ein s.df r₀.names)
    completion_status := calculate_completion_status
      (finalSourceRecord s ein req r₀).names req.marked_names
      (finalSourceRecord s ein req r₀).mappings
    pending_reported := (pendingPairs s.df req).length }

/-- The rows and the edited set after the call do not depend on whether
persistence succeeded (src/main.py lines 458-459 raise only after the
in-memory mutation). -/
theorem save_df_edited_persist_independent (s : SysState) (ein : Nat)
    (req : SaveRequest) :
    (save_ein_changes false s ein req).1.df = (save_ein_changes true s ein req).1.df ∧
    (save_ein_changes false s ein req).1.edited =
      (save_ein_changes true s ein req).1.edited := by
  unfold save_ein_changes save_apply
  cases (alistFind s.df ein).isSome <;> simp

/-- Umbrella characterization of `save_ein_changes` when the EIN exists:
final source row, final target rows, edited set, response, and cache. -/
theorem save_spec (persistOk : Bool) (s : SysState) (ein : Nat) (req : SaveRequest)
    (r₀ : Record) (hs : alistFind s.df ein = some r₀) (hnd : r₀.names.Nodup)
    (hkeys : (req.name_ein_mappings.map Prod.fst).Nodup) :
    (alistFind (save_ein_changes persistOk s ein req).1.df ein =
        some (finalSourceRecord s ein req r₀)) ∧
    (∀ j, j ≠ ein → alistFind (save_ein_changes persistOk s ein req).1.df j =
        (alistFind s.df j).map (fun rt =>
          { rt with names := rt.names ++
              tgtAppends j r₀.names rt.names (transferCandidates s.df req) })) ∧
    ((save_ein_changes persistOk s ein req).1.edited =
        if savedUseNew req then insert ein s.edited else s.edited.erase ein) ∧
    (persistOk = true → (save_ein_changes persistOk s ein req).2 =
        Except.ok (specSaveResult s ein req r₀)) ∧
    (persistOk = true → (save_ein_changes persistOk s ein req).1.cache = []) ∧
    (persistOk = false → (save_ein_changes persistOk s ein req).2 =
        Except.error ApiError.saveFailed) ∧
    (persistOk = false → ∀ j, alistFind (save_ein_changes persistOk s ein req).1.cache j =
        if j = ein then none
        else if (transferCandidates s.df req).any
            (fun p => p.2 == j && countCond ein s.df r₀.names p) then none
        else alistFind s.cache j) := by
  have hsrc1 : alistFind
      (alistUpdate s.df ein (fun r => { r with marked := req.marked_names })) ein =
      some { r₀ with marked := req.marked_names } := by
    rw [alistFind_alistUpdate, if_pos rfl, hs]
    rfl
  have hT : transferCandidates
      (alistUpdate s.df ein (fun r => { r with marked := req.marked_names })) req =
      transferCandidates s.df req := by
    unfold transferCandidates
    exact List.filter_congr (fun p _ => by rw [isSome_alistFind_alistUpdate])
  have hP : pendingPairs
      (alistUpdate s.df ein (fun r => { r with marked := req.marked_names })) req =
      pendingPairs s.df req := by
    unfold pendingPairs
    congr 1
    exact List.filter_congr (fun p _ => by rw [isSome_alistFind_alistUpdate])
  have htg' : ∀ p ∈ transferCandidates s.df req,
      (alistFind (alistUpdate s.df ein (fun r => { r with marked := req.marked_names }))
        p.2).isSome := by
    intro p hp
    rw [isSome_alistFind_alistUpdate]
    exact (List.mem_filter.mp hp).2
  have hkeys' : ((transferCandidates s.df req).map Prod.fst).Nodup :=
    hkeys.sublist ((List.filter_sublist _).map Prod.fst)
  obtain ⟨c1, c2, c3, c4⟩ :=
    transfer_fold_spec ein (transferCandidates s.df req)
      ⟨alistUpdate s.df ein (fun r => { r with marked := req.marked_names }), s.cache, 0⟩
      { r₀ with marked := req.marked_names } hsrc1 hnd htg' hkeys'
  dsimp only at c1 c2 c3 c4
  have hccs : ∀ pq, countCond ein
      (alistUpdate s.df ein (fun r => { r with marked := req.marked_names }))
      r₀.names pq = countCond ein s.df r₀.names pq := by
    intro pq
    unfold countCond
    rw [names_alistFind_alistUpdate s.df ein
      (fun r => { r with marked := req.marked_names }) (fun r => rfl) pq.2]
  rw [countP_congr_mem _ (countCond ein s.df r₀.names) _ (fun pq _ => hccs pq)] at c3
  have c4' : ∀ j, alistFind
      ((transferCandidates s.df req).foldl (transfer_step ein)
        ⟨alistUpdate s.df ein (fun r => { r with marked := req.marked_names }),
         s.cache, 0⟩).cache j =
      if (transferCandidates s.df req).any
          (fun p => p.2 == j && countCond ein s.df r₀.names p) then none
      else alistFind s.cache j := by
    intro j
    rw [c4 j, any_congr_mem _
      (fun p => p.2 == j && countCond ein s.df r₀.names p) _
      (fun pq _ => by rw [hccs pq])]
  have hsome : (alistFind s.df ein).isSome = true := by
    rw [hs]
    rfl
  have hred : save_ein_changes persistOk s ein req = save_apply persistOk s ein req := by
    unfold save_ein_changes
    rw [hsome]
    simp
  rw [hred]
  simp only [save_apply]
  rw [hT, hP, hsrc1]
  simp only [Option.map_some', Option.getD_some]
  refine ⟨?_, ?_, ?_, ?_, ?_, ?_, ?_⟩
  · rw [apply_ite Prod.fst, apply_ite SysState.df]
    dsimp only
    rw [ite_self]
    simp only [alistUpdate_alistUpdate_same, alistFind_alistUpdate_self, c1,
      Option.map_some', Option.getD_some]
    rfl
  · intro j hj
    rw [apply_ite Prod.fst, apply_ite SysState.df]
    dsimp only
    rw [ite_self]
    simp only [alistUpdate_alistUpdate_same]
    rw [alistFind_alistUpdate, if_neg hj, c2 j hj, alistFind_alistUpdate, if_neg hj]
  · rw [apply_ite Prod.fst, apply_ite SysState.edited]
    dsimp only
    rw [ite_self]
  · intro hpo
    subst hpo
    rw [if_pos rfl]
    dsimp only
    simp only [alistUpdate_alistUpdate_same, alistFind_alistUpdate_self, c1, c3,
      Option.map_some', Option.getD_some, Nat.zero_add]
    rfl
  · intro hpo
    subst hpo
    rw [if_pos rfl]
  · intro hpo
    subst hpo
    rw [if_neg Bool.false_ne_true]
  · intro hpo
    subst hpo
    rw [if_neg Bool.false_ne_true]
    intro j
    dsimp only
    rw [alistFind_alistErase]
    by_cases hje : j = ein
    · rw [if_pos hje, if_pos hje]
    · rw [if_neg hje, if_neg hje, c4' j]

/-! ## Endpoint characterizations used by several claims -/

theorem save_not_found (persistOk : Bool) (s : SysState) (ein : Nat)
    (req : SaveRequest) (h : alistFind s.df ein = none) :
    save_ein_changes persistOk s ein req = (s, Except.error ApiError.notFound) := by
  unfold save_ein_changes
  rw [h]
  rfl

theorem get_hit (s : SysState) (ein : Nat) (v : View)
    (h : alistFind s.cache ein = some v) : get_ein_data s ein = (s, Except.ok v) := by
  unfold get_ein_data
  rw [h]

theorem get_miss_found (s : SysState) (ein : Nat) (r : Record)
    (hc : alistFind s.cache ein = none) (h : alistFind s.df ein = some r) :
    get_ein_data s ein =
      ({ s with cache := alistUpsert s.cache ein (renderView ein r) },
       Except.ok (renderView ein r)) := by
  unfold get_ein_data
  rw [hc, h]

theorem get_not_found (s : SysState) (ein : Nat)
    (hc : alistFind s.cache ein = none) (h : alistFind s.df ein = none) :
    get_ein_data s ein = (s, Except.error ApiError.notFound) := by
  unfold get_ein_data
  rw [hc, h]

/-! ## Claim theorems -/

/-- C2: the status classifier is a pure function of the triple
`(names, marked, mappings)`: it returns `empty` when `names` is empty;
otherwise, with `processed = set(marked) ∪ keys(mappings)`, it returns
`not_started` when the processed set is empty, `done` when its size equals
`|names|`, and `partially_done` otherwise; identical triples classify
identically, and when `|processed| > |names|` the result is
`partially_done`, never `done`. -/
theorem status_classifier_spec
    (names marked : List String) (mappings : List (String × Nat))
    (names₂ marked₂ : List String) (mappings₂ : List (String × Nat)) :
    (names = [] → calculate_completion_status names marked mappings = "empty") ∧
    (names ≠ [] →
      (marked.toFinset ∪ (mappings.map Prod.fst).toFinset).card = 0 →
      calculate_completion_status names marked mappings = "not_started") ∧
    (names ≠ [] →
      (marked.toFinset ∪ (mappings.map Prod.fst).toFinset).card = names.length →
      calculate_completion_status names marked mappings = "done") ∧
    (names ≠ [] →
      (marked.toFinset ∪ (mappings.map Prod.fst).toFinset).card ≠ 0 →
      (marked.toFinset ∪ (mappings.map Prod.fst).toFinset).card ≠ names.length →
      calculate_completion_status names marked mappings = "partially_done") ∧
    (names ≠ [] →
      names.length < (marked.toFinset ∪ (mappings.map Prod.fst).toFinset).card →
      calculate_completion_status names marked mappings = "partially_done" ∧
      calculate_completion_status names marked mappings ≠ "done") ∧
    (names = names₂ → marked = marked₂ → mappings = mappings₂ →
      calculate_completion_status names marked mappings =
        calculate_completion_status names₂ marked₂ mappings₂) := by
  refine ⟨?_, ?_, ?_, ?_, ?_, ?_⟩
  · intro h
    simp [calculate_completion_status, h]
  · intro h hc
    simp [calculate_completion_status, h, hc]
  · intro h hc
    have hl : 0 < names.length := List.length_pos.mpr h
    have hc0 : (marked.toFinset ∪ (mappings.map Prod.fst).toFinset).card ≠ 0 := by
      omega
    simp [calculate_completion_status, h, hc, hc0]
  · intro h hc0 hcl
    simp [calculate_completion_status, h, hc0, hcl]
  · intro h hgt
    have hl : 0 < names.length := List.length_pos.mpr h
    have hc0 : (marked.toFinset ∪ (mappings.map Prod.fst).toFinset).card ≠ 0 := by
      omega
    have hcl : (marked.toFinset ∪ (mappings.map Prod.fst).toFinset).card ≠
        names.length := by omega
    refine ⟨by simp [calculate_completion_status, h, hc0, hcl], ?_⟩
    simp [calculate_completion_status, h, hc0, hcl]
  · intro h1 h2 h3
    rw [h1, h2, h3]

/-- Closed witness for C2 on the spec's own edge vectors. -/
theorem status_classifier_spec_witness :
    (["A"] : List String) ≠ [] ∧
    ((["B"] : List String).toFinset ∪
      ([("C", 99)].map Prod.fst : List String).toFinset).card ≠ 0 ∧
    calculate_completion_status ["A"] ["B"] [("C", 99)] = "partially_done" := by
  refine ⟨by decide, by decide, ?_⟩
  have h := (status_classifier_spec ["A"] ["B"] [("C", 99)] [] [] []).2.2.2.1
  exact h (by decide) (by decide) (by decide)

/-- The keys of the transfer candidates are distinct when the request's
keys are. -/
theorem nodup_keys_transferCandidates (s : SysState) (req : SaveRequest)
    (hkeys : (req.name_ein_mappings.map Prod.fst).Nodup) :
    ((transferCandidates s.df req).map Prod.fst).Nodup :=
  hkeys.sublist ((List.filter_sublist _).map Prod.fst)

/-- C1: per-pair semantics of the transfer engine and the claim's concrete
scenario.  For every `(name, targetId)` request pair whose target exists:
when the name is in the source's names it is removed there (re-appended
only in the self-target case) and appended to the target with the count
incremented exactly when the target check of the loop finds the name
absent; when the name is not in the source's names the pair is skipped
silently with no error and no count.  In the scenario
`{100: ["Acme Inc","ACME INCORPORATED"], 200: ["Beta LLC"]}` with mapping
`{"ACME INCORPORATED": 200}`, record 100 ends with `["Acme Inc"]`, record
200 with `["Beta LLC","ACME INCORPORATED"]`, and `transferredCount = 1`. -/
theorem save_transfer_pair_spec
    (persistOk : Bool) (s : SysState) (ein : Nat) (req : SaveRequest)
    (r₀ rt : Record) (n : String) (t : Nat)
    (hs : alistFind s.df ein = some r₀) (hnd : r₀.names.Nodup)
    (hkeys : (req.name_ein_mappings.map Prod.fst).Nodup)
    (hpair : (n, t) ∈ req.name_ein_mappings)
    (hrt : alistFind s.df t = some rt) :
    -- the pair is classified as a transfer candidate, not a pending mapping
    ((n, t) ∈ transferCandidates s.df req) ∧
    -- the call reports success (never an error) when persistence succeeds
    ((save_ein_changes true s ein req).2 =
      Except.ok (specSaveResult s ein req r₀)) ∧
    -- the reported count counts exactly the candidate pairs whose name is in
    -- the source's names and whose target check finds the name absent
    ((specSaveResult s ein req r₀).transferred_count =
      (transferCandidates s.df req).countP (countCond ein s.df r₀.names)) ∧
    (countCond ein s.df r₀.names (n, t) = true ↔
      (n ∈ r₀.names ∧ (t = ein ∨ n ∉ rt.names))) ∧
    -- source-side membership after the call
    (∀ r₁, alistFind (save_ein_changes persistOk s ein req).1.df ein = some r₁ →
      (n ∈ r₁.names ↔ (t = ein ∧ n ∈ r₀.names))) ∧
    -- target-side membership after the call (foreign target)
    (t ≠ ein → ∀ rt₁,
      alistFind (save_ein_changes persistOk s ein req).1.df t = some rt₁ →
      ((n ∈ rt₁.names ↔ (n ∈ rt.names ∨ n ∈ r₀.names)) ∧
       (n ∉ r₀.names → (n ∈ rt₁.names ↔ n ∈ rt.names)))) ∧
    -- the claim's concrete scenario
    (((alistFind (save_ein_changes true
        ⟨[(100, ⟨["Acme Inc", "ACME INCORPORATED"], [], [], none, none⟩),
          (200, ⟨["Beta LLC"], [], [], none, none⟩)], ∅, []⟩
        100 ⟨[], none, [("ACME INCORPORATED", 200)]⟩).1.df 100).map Record.names =
        some ["Acme Inc"]) ∧
     ((alistFind (save_ein_changes true
        ⟨[(100, ⟨["Acme Inc", "ACME INCORPORATED"], [], [], none, none⟩),
          (200, ⟨["Beta LLC"], [], [], none, none⟩)], ∅, []⟩
        100 ⟨[], none, [("ACME INCORPORATED", 200)]⟩).1.df 200).map Record.names =
        some ["Beta LLC", "ACME INCORPORATED"]) ∧
     ((save_ein_changes true
        ⟨[(100, ⟨["Acme Inc", "ACME INCORPORATED"], [], [], none, none⟩),
          (200, ⟨["Beta LLC"], [], [], none, none⟩)], ∅, []⟩
        100 ⟨[], none, [("ACME INCORPORATED", 200)]⟩).2.map
          SaveResult.transferred_count = Except.ok 1)) := by
  have hcand : (n, t) ∈ transferCandidates s.df req :=
    List.mem_filter.mpr ⟨hpair, by simp [hrt]⟩
  have hkT : ((transferCandidates s.df req).map Prod.fst).Nodup :=
    nodup_keys_transferCandidates s req hkeys
  obtain ⟨c1, c2, _c3, c4ok, _, _, _⟩ :=
    save_spec persistOk s ein req r₀ hs hnd hkeys
  refine ⟨hcand, ?_, rfl, ?_, ?_, ?_, by decide, by decide, by rfl⟩
  · exact (save_spec true s ein req r₀ hs hnd hkeys).2.2.2.1 rfl
  · unfold countCond
    rw [hrt]
    simp [decide_eq_true_iff]
  · intro r₁ hr₁
    rw [c1] at hr₁
    cases hr₁
    exact mem_srcAfter_key ein r₀.names (transferCandidates s.df req) n t hcand hkT
  · intro ht rt₁ hrt₁
    rw [c2 t ht, hrt] at hrt₁
    simp only [Option.map_some'] at hrt₁
    cases hrt₁
    have happ : n ∈ tgtAppends t r₀.names rt.names (transferCandidates s.df req) ↔
        (n ∈ r₀.names ∧ n ∉ rt.names) := by
      rw [mem_tgtAppends]
      constructor
      · rintro ⟨p, hpT, h1, h2, h3, h4⟩
        have hpeq : p = (n, t) :=
          List.inj_on_of_nodup_map hkT hpT hcand (by simpa using h4)
        subst hpeq
        exact ⟨h2, h3⟩
      · rintro ⟨h1, h2⟩
        exact ⟨(n, t), hcand, rfl, h1, h2, rfl⟩
    constructor
    · rw [List.mem_append, happ]
      by_cases hin : n ∈ rt.names <;> simp [hin]
    · intro hnot
      rw [List.mem_append, happ]
      simp [hnot]

/-- Counterexample to C3 as stated: `save_ein_changes` stores the request's
`marked_names` verbatim (src/main.py line 387), so marking a name that is
not among the record's names leaves `marked ⊄ names` after the call. -/
theorem marked_subset_counterexample :
    ((alistFind (save_ein_changes true
        ⟨[(100, ⟨["A"], [], [], none, none⟩)], ∅, []⟩ 100
        ⟨["B"], none, []⟩).1.df 100).map Record.marked = some ["B"]) ∧
    ((alistFind (save_ein_changes true
        ⟨[(100, ⟨["A"], [], [], none, none⟩)], ∅, []⟩ 100
        ⟨["B"], none, []⟩).1.df 100).map Record.names = some ["A"]) ∧
    "B" ∉ (["A"] : List String) := by
  refine ⟨by rfl, by rfl, by decide⟩

/-- C3 amended: after `applyUpdate` the source's `marked` equals the
request's `markedNames` verbatim — the invariant `marked ⊆ names` is not
enforced, and holds after the call exactly when every requested marked name
lies in the post-transfer names. -/
theorem marked_replaced_verbatim
    (persistOk : Bool) (s : SysState) (ein : Nat) (req : SaveRequest)
    (r₀ : Record) (hs : alistFind s.df ein = some r₀) (hnd : r₀.names.Nodup)
    (hkeys : (req.name_ein_mappings.map Prod.fst).Nodup) :
    ∃ r₁, alistFind (save_ein_changes persistOk s ein req).1.df ein = some r₁ ∧
      r₁.marked = req.marked_names ∧
      ((∀ x ∈ req.marked_names, x ∈ r₁.names) ↔ ∀ x ∈ r₁.marked, x ∈ r₁.names) := by
  obtain ⟨c1, -, -, -, -, -, -⟩ := save_spec persistOk s ein req r₀ hs hnd hkeys
  exact ⟨finalSourceRecord s ein req r₀, c1, rfl, Iff.rfl⟩

/-- Closed witness for the amended C3. -/
theorem marked_replaced_verbatim_witness :
    (alistFind (save_ein_changes true
        ⟨[(100, ⟨["A"], [], [], none, none⟩)], ∅, []⟩ 100
        ⟨["B"], none, []⟩).1.df 100).map Record.marked = some ["B"] := by
  obtain ⟨r₁, h1, h2, -⟩ := marked_replaced_verbatim true
    ⟨[(100, ⟨["A"], [], [], none, none⟩)], ∅, []⟩
    100 ⟨["B"], none, []⟩ ⟨["A"], [], [], none, none⟩
    (by rfl) (by decide) (by decide)
  rw [h1, Option.map_some', h2]

/-- Counterexample to C4 as stated: a transfer modifies the target's names
but never rewrites the target's stored `completion_status`
(src/main.py lines 449-452 touch only the source row), so the stored field
can disagree with the classifier after the call. -/
theorem target_status_stale_counterexample :
    ((alistFind (save_ein_changes true
        ⟨[(100, ⟨["A"], [], [], none, none⟩),
          (200, ⟨["B"], ["B"], [], none, some "done"⟩)], ∅, []⟩ 100
        ⟨[], none, [("A", 200)]⟩).1.df 200).map Record.completion_status =
      some (some "done")) ∧
    ((alistFind (save_ein_changes true
        ⟨[(100, ⟨["A"], [], [], none, none⟩),
          (200, ⟨["B"], ["B"], [], none, some "done"⟩)], ∅, []⟩ 100
        ⟨[], none, [("A", 200)]⟩).1.df 200).map classifyRecord =
      some "partially_done") ∧
    (some "done" : Option String) ≠ some "partially_done" := by
  refine ⟨by rfl, by rfl, by decide⟩

/-- C4 amended: after `applyUpdate`, the stored status of the source record
equals the Status Classifier on its current triple, but a target record
modified by a transfer keeps its previous stored status field unchanged. -/
theorem stored_status_after_save
    (persistOk : Bool) (s : SysState) (ein : Nat) (req : SaveRequest)
    (r₀ : Record) (hs : alistFind s.df ein = some r₀) (hnd : r₀.names.Nodup)
    (hkeys : (req.name_ein_mappings.map Prod.fst).Nodup) :
    (∃ r₁, alistFind (save_ein_changes persistOk s ein req).1.df ein = some r₁ ∧
      r₁.completion_status = some (classifyRecord r₁)) ∧
    (∀ j, j ≠ ein → ∀ rt rt₁, alistFind s.df j = some rt →
      alistFind (save_ein_changes persistOk s ein req).1.df j = some rt₁ →
      rt₁.completion_status = rt.completion_status) := by
  obtain ⟨c1, c2, -, -, -, -, -⟩ := save_spec persistOk s ein req r₀ hs hnd hkeys
  constructor
  · exact ⟨finalSourceRecord s ein req r₀, c1, rfl⟩
  · intro j hj rt rt₁ hrt hrt₁
    rw [c2 j hj, hrt] at hrt₁
    simp only [Option.map_some'] at hrt₁
    cases hrt₁
    rfl

/-- Closed witness for the amended C4. -/
theorem stored_status_after_save_witness :
    (alistFind (save_ein_changes true
        ⟨[(100, ⟨["A"], [], [], none, none⟩),
          (200, ⟨["B"], ["B"], [], none, some "done"⟩)], ∅, []⟩ 100
        ⟨[], none, [("A", 200)]⟩).1.df 100).map Record.completion_status =
    (alistFind (save_ein_changes true
        ⟨[(100, ⟨["A"], [], [], none, none⟩),
          (200, ⟨["B"], ["B"], [], none, some "done"⟩)], ∅, []⟩ 100
        ⟨[], none, [("A", 200)]⟩).1.df 100).map
      (fun r => some (classifyRecord r)) := by
  obtain ⟨r₁, h1, h2⟩ := (stored_status_after_save true
    ⟨[(100, ⟨["A"], [], [], none, none⟩),
      (200, ⟨["B"], ["B"], [], none, some "done"⟩)], ∅, []⟩ 100
    ⟨[], none, [("A", 200)]⟩ ⟨["A"], [], [], none, none⟩
    (by rfl) (by decide) (by decide)).1
  rw [h1, Option.map_some', Option.map_some', h2]

/-- Counterexample to C5 as stated: with a prior pending mapping
`{"X": 5}` and a request creating one new pending mapping `{"Y": 999}`,
the response's `mappings_count` is 2 — the size of the merged stored
mappings (src/main.py line 476), not the number of newly-pending mappings
created by the call. -/
theorem mappings_count_counterexample :
    ((save_ein_changes true
        ⟨[(100, ⟨["A", "B"], [], [("X", 5)], none, none⟩)], ∅, []⟩ 100
        ⟨[], none, [("Y", 999)]⟩).2.map SaveResult.mappings_count =
      Except.ok 2) ∧
    (([("Y", 999)].filter (fun p : String × Nat =>
        !(alistFind [(100, (⟨["A", "B"], [], [("X", 5)], none, none⟩ : Record))]
          p.2).isSome)).length = 1) ∧
    (2 : Nat) ≠ 1 := by
  refine ⟨by rfl, by rfl, by decide⟩

/-- C5 amended: the response's `mappings_count` is the total size of the
record's stored mappings after the merge (prior retained pairs included);
the newly-pending count appears separately (it is the count embedded in the
response message); the other fields are recomputed after the mutation.  The
claim's concrete scenario (no prior mappings, target 999 absent) does hold:
one pending mapping reported, `transferredCount = 0`, names unchanged. -/
theorem save_result_fields_spec
    (s : SysState) (ein : Nat) (req : SaveRequest)
    (r₀ : Record) (hs : alistFind s.df ein = some r₀) (hnd : r₀.names.Nodup)
    (hkeys : (req.name_ein_mappings.map Prod.fst).Nodup) :
    ((save_ein_changes true s ein req).2 =
      Except.ok (specSaveResult s ein req r₀)) ∧
    (∃ r₁, alistFind (save_ein_changes true s ein req).1.df ein = some r₁ ∧
      (specSaveResult s ein req r₀).mappings_count = r₁.mappings.length ∧
      (specSaveResult s ein req r₀).total_names = r₁.names.length ∧
      (specSaveResult s ein req r₀).completion_status = classifyRecord r₁ ∧
      (specSaveResult s ein req r₀).new_name = r₁.new_name ∧
      (specSaveResult s ein req r₀).pending_reported =
        (pendingPairs s.df req).length) ∧
    (((alistFind (save_ein_changes true
        ⟨[(100, ⟨["Acme Inc", "ACME INCORPORATED"], [], [], none, none⟩)], ∅, []⟩
        100 ⟨[], none, [("ACME INCORPORATED", 999)]⟩).1.df 100).map Record.names =
        some ["Acme Inc", "ACME INCORPORATED"]) ∧
     ((alistFind (save_ein_changes true
        ⟨[(100, ⟨["Acme Inc", "ACME INCORPORATED"], [], [], none, none⟩)], ∅, []⟩
        100 ⟨[], none, [("ACME INCORPORATED", 999)]⟩).1.df 100).map Record.mappings =
        some [("ACME INCORPORATED", 999)]) ∧
     ((save_ein_changes true
        ⟨[(100, ⟨["Acme Inc", "ACME INCORPORATED"], [], [], none, none⟩)], ∅, []⟩
        100 ⟨[], none, [("ACME INCORPORATED", 999)]⟩).2.map
          SaveResult.transferred_count = Except.ok 0) ∧
     ((save_ein_changes true
        ⟨[(100, ⟨["Acme Inc", "ACME INCORPORATED"], [], [], none, none⟩)], ∅, []⟩
        100 ⟨[], none, [("ACME INCORPORATED", 999)]⟩).2.map
          SaveResult.pending_reported = Except.ok 1) ∧
     ((save_ein_changes true
        ⟨[(100, ⟨["Acme Inc", "ACME INCORPORATED"], [], [], none, none⟩)], ∅, []⟩
        100 ⟨[], none, [("ACME INCORPORATED", 999)]⟩).2.map
          SaveResult.mappings_count = Except.ok 1)) := by
  obtain ⟨c1, -, -, c4ok, -, -, -⟩ := save_spec true s ein req r₀ hs hnd hkeys
  refine ⟨c4ok rfl, ⟨finalSourceRecord s ein req r₀, c1, rfl, rfl, rfl, rfl, rfl⟩,
    by decide, by decide, by rfl, by rfl, by rfl⟩

/-- C6: when persistence fails, the call surfaces a failure (HTTP 500) but
the in-memory rows and edited set keep every mutation — identically to the
successful-persistence outcome — and a subsequent read of the source
observes the mutated record. -/
theorem persistence_failure_keeps_mutation
    (s : SysState) (ein : Nat) (req : SaveRequest)
    (r₀ : Record) (hs : alistFind s.df ein = some r₀) (hnd : r₀.names.Nodup)
    (hkeys : (req.name_ein_mappings.map Prod.fst).Nodup) :
    ((save_ein_changes false s ein req).2 = Except.error ApiError.saveFailed) ∧
    ((save_ein_changes false s ein req).1.df =
      (save_ein_changes true s ein req).1.df) ∧
    ((save_ein_changes false s ein req).1.edited =
      (save_ein_changes true s ein req).1.edited) ∧
    (∃ r₁, alistFind (save_ein_changes false s ein req).1.df ein = some r₁ ∧
      (get_ein_data (save_ein_changes false s ein req).1 ein).2 =
        Except.ok (renderView ein r₁)) := by
  obtain ⟨c1, -, -, -, -, c6, c7⟩ := save_spec false s ein req r₀ hs hnd hkeys
  obtain ⟨hdf, hed⟩ := save_df_edited_persist_independent s ein req
  refine ⟨c6 rfl, hdf, hed, finalSourceRecord s ein req r₀, c1, ?_⟩
  have hc : alistFind (save_ein_changes false s ein req).1.cache ein = none := by
    rw [c7 rfl ein, if_pos rfl]
  rw [get_miss_found _ _ _ hc c1]

/-- Closed witness for C6. -/
theorem persistence_failure_keeps_mutation_witness :
    ((save_ein_changes false
        ⟨[(100, ⟨["A"], [], [], none, none⟩)], ∅, []⟩ 100
        ⟨[], none, []⟩).2 = Except.error ApiError.saveFailed) ∧
    ((save_ein_changes false
        ⟨[(100, ⟨["A"], [], [], none, none⟩)], ∅, []⟩ 100
        ⟨[], none, []⟩).1.df =
      (save_ein_changes true
        ⟨[(100, ⟨["A"], [], [], none, none⟩)], ∅, []⟩ 100
        ⟨[], none, []⟩).1.df) := by
  have h := persistence_failure_keeps_mutation
    ⟨[(100, ⟨["A"], [], [], none, none⟩)], ∅, []⟩ 100 ⟨[], none, []⟩
    ⟨["A"], [], [], none, none⟩ (by rfl) (by decide) (by decide)
  exact ⟨h.1, h.2.1⟩

/-- The body of a found save never reports `NotFound`. -/
theorem save_apply_ne_notFound (persistOk : Bool) (s : SysState) (ein : Nat)
    (req : SaveRequest) :
    (save_apply persistOk s ein req).2 ≠ Except.error ApiError.notFound := by
  cases persistOk <;> simp [save_apply]

/-- C7: `get` and `applyUpdate` fail with `NotFound` exactly when the EIN is
absent from the store (for `get`, under the invariant that every cached EIN
is present in the store), and a `NotFound` failure leaves the whole state —
records, edited set and cache — unchanged. -/
theorem not_found_spec (persistOk : Bool) (s : SysState) (ein : Nat)
    (req : SaveRequest)
    (hcoh : ∀ j, (alistFind s.cache j).isSome = true →
      (alistFind s.df j).isSome = true) :
    ((get_ein_data s ein).2 = Except.error ApiError.notFound ↔
      alistFind s.df ein = none) ∧
    ((get_ein_data s ein).2 = Except.error ApiError.notFound →
      (get_ein_data s ein).1 = s) ∧
    ((save_ein_changes persistOk s ein req).2 = Except.error ApiError.notFound ↔
      alistFind s.df ein = none) ∧
    (alistFind s.df ein = none →
      save_ein_changes persistOk s ein req = (s, Except.error ApiError.notFound)) := by
  have hget : ∀ P : Prop,
      ((get_ein_data s ein).2 = Except.error ApiError.notFound ↔
        alistFind s.df ein = none) ∧
      ((get_ein_data s ein).2 = Except.error ApiError.notFound →
        (get_ein_data s ein).1 = s) := by
    intro _
    cases hc : alistFind s.cache ein with
    | some v =>
      rw [get_hit s ein v hc]
      have hsome : (alistFind s.df ein).isSome = true := hcoh ein (by rw [hc]; rfl)
      constructor
      · constructor
        · intro h
          cases h
        · intro h
          rw [h] at hsome
          cases hsome
      · intro h
        cases h
    | none =>
      cases hd : alistFind s.df ein with
      | some r =>
        rw [get_miss_found s ein r hc hd]
        constructor
        · constructor
          · intro h
            cases h
          · intro h
            cases h
        · intro h
          cases h
      | none =>
        rw [get_not_found s ein hc hd]
        exact ⟨by simp, fun _ => rfl⟩
  obtain ⟨hg1, hg2⟩ := hget True
  refine ⟨hg1, hg2, ?_, fun h => save_not_found persistOk s ein req h⟩
  cases hd : alistFind s.df ein with
  | some r =>
    constructor
    · intro h
      exfalso
      have hred : save_ein_changes persistOk s ein req =
          save_apply persistOk s ein req := by
        unfold save_ein_changes
        rw [hd]
        simp
      rw [hred] at h
      exact save_apply_ne_notFound persistOk s ein req h
    · intro h
      cases h
  | none =>
    rw [save_not_found persistOk s ein req hd]
    simp

/-- Closed witness for C7. -/
theorem not_found_spec_witness :
    ((get_ein_data ⟨[(100, ⟨["A"], [], [], none, none⟩)], ∅, []⟩ 7).2 =
      Except.error ApiError.notFound) ∧
    (save_ein_changes true ⟨[(100, ⟨["A"], [], [], none, none⟩)], ∅, []⟩ 7
        ⟨[], none, []⟩ =
      (⟨[(100, ⟨["A"], [], [], none, none⟩)], ∅, []⟩,
        Except.error ApiError.notFound)) := by
  have h := not_found_spec true ⟨[(100, ⟨["A"], [], [], none, none⟩)], ∅, []⟩ 7
    ⟨[], none, []⟩ (by intro j hj; simp [alistFind] at hj)
  exact ⟨h.1.mpr (by rfl), h.2.2.2 (by rfl)⟩

/-- C10: a self-transfer — the request maps a present name to the source's
own EIN — succeeds, removes the name and re-appends it at the end of the
same names list, reports one transfer, and leaves the set of names
unchanged. -/
theorem self_transfer_spec
    (s : SysState) (ein : Nat) (req : SaveRequest) (r₀ : Record) (n : String)
    (hs : alistFind s.df ein = some r₀) (hnd : r₀.names.Nodup)
    (hreq : req.name_ein_mappings = [(n, ein)]) (hn : n ∈ r₀.names) :
    ∃ r₁, alistFind (save_ein_changes true s ein req).1.df ein = some r₁ ∧
      r₁.names = r₀.names.erase n ++ [n] ∧
      r₁.names.toFinset = r₀.names.toFinset ∧
      (save_ein_changes true s ein req).2.map SaveResult.transferred_count =
        Except.ok 1 := by
  have hkeys : (req.name_ein_mappings.map Prod.fst).Nodup := by
    rw [hreq]
    simp
  have hT : transferCandidates s.df req = [(n, ein)] := by
    unfold transferCandidates
    rw [hreq]
    simp [hs]
  obtain ⟨c1, -, -, c4ok, -, -, -⟩ := save_spec true s ein req r₀ hs hnd hkeys
  have hsa : srcAfter ein r₀.names [(n, ein)] = r₀.names.erase n ++ [n] := by
    unfold srcAfter
    congr 1
    · rw [hnd.erase_eq_filter n]
      refine (List.filter_congr (fun m hm => ?_)).symm
      rw [Bool.eq_iff_iff]
      simp
    · rw [List.filter_cons]
      simp [hn]
  have hset : (r₀.names.erase n ++ [n]).toFinset = r₀.names.toFinset := by
    ext a
    simp only [List.toFinset_append, Finset.mem_union, List.mem_toFinset,
      List.mem_singleton]
    constructor
    · rintro (ha | rfl)
      · exact (hnd.mem_erase_iff.mp ha).2
      · exact hn
    · intro ha
      by_cases han : a = n
      · exact Or.inr han
      · exact Or.inl (hnd.mem_erase_iff.mpr ⟨han, ha⟩)
  have hcount : (transferCandidates s.df req).countP
      (countCond ein s.df r₀.names) = 1 := by
    rw [hT]
    have : countCond ein s.df r₀.names (n, ein) = true := by
      unfold countCond
      simp [hn]
    simp [List.countP_cons, this]
  refine ⟨finalSourceRecord s ein req r₀, c1, ?_, ?_, ?_⟩
  · show srcAfter ein r₀.names (transferCandidates s.df req) = _
    rw [hT, hsa]
  · show (srcAfter ein r₀.names (transferCandidates s.df req)).toFinset = _
    rw [hT, hsa, hset]
  · rw [c4ok rfl]
    show Except.ok ((transferCandidates s.df req).countP
      (countCond ein s.df r₀.names)) = _
    rw [hcount]

/-- Closed witness for C10. -/
theorem self_transfer_spec_witness :
    ((alistFind (save_ein_changes true
        ⟨[(100, ⟨["Acme Inc", "ACME INCORPORATED"], [], [], none, none⟩)], ∅, []⟩
        100 ⟨[], none, [("Acme Inc", 100)]⟩).1.df 100).map Record.names =
      some ((["Acme Inc", "ACME INCORPORATED"] : List String).erase "Acme Inc"
        ++ ["Acme Inc"])) ∧
    ((save_ein_changes true
        ⟨[(100, ⟨["Acme Inc", "ACME INCORPORATED"], [], [], none, none⟩)], ∅, []⟩
        100 ⟨[], none, [("Acme Inc", 100)]⟩).2.map SaveResult.transferred_count =
      Except.ok 1) := by
  obtain ⟨r₁, h1, h2, -, h4⟩ := self_transfer_spec
    ⟨[(100, ⟨["Acme Inc", "ACME INCORPORATED"], [], [], none, none⟩)], ∅, []⟩
    100 ⟨[], none, [("Acme Inc", 100)]⟩
    ⟨["Acme Inc", "ACME INCORPORATED"], [], [], none, none⟩ "Acme Inc"
    (by rfl) (by decide) (by rfl) (by decide)
  refine ⟨?_, h4⟩
  rw [h1, Option.map_some', h2]

/-- Closed witness for C1. -/
theorem save_transfer_pair_spec_witness :
    ("ACME INCORPORATED", (200 : Nat)) ∈ transferCandidates
      [(100, (⟨["Acme Inc", "ACME INCORPORATED"], [], [], none, none⟩ : Record)),
       (200, ⟨["Beta LLC"], [], [], none, none⟩)]
      ⟨[], none, [("ACME INCORPORATED", 200)]⟩ ∧
    (countCond 100
      [(100, (⟨["Acme Inc", "ACME INCORPORATED"], [], [], none, none⟩ : Record)),
       (200, ⟨["Beta LLC"], [], [], none, none⟩)]
      ["Acme Inc", "ACME INCORPORATED"] ("ACME INCORPORATED", 200) = true ↔
      ("ACME INCORPORATED" ∈ (["Acme Inc", "ACME INCORPORATED"] : List String) ∧
        ((200 : Nat) = 100 ∨
          "ACME INCORPORATED" ∉ (["Beta LLC"] : List String)))) := by
  have h := save_transfer_pair_spec true
    ⟨[(100, ⟨["Acme Inc", "ACME INCORPORATED"], [], [], none, none⟩),
      (200, ⟨["Beta LLC"], [], [], none, none⟩)], ∅, []⟩
    100 ⟨[], none, [("ACME INCORPORATED", 200)]⟩
    ⟨["Acme Inc", "ACME INCORPORATED"], [], [], none, none⟩
    ⟨["Beta LLC"], [], [], none, none⟩
    "ACME INCORPORATED" 200
    (by rfl) (by decide) (by decide) (by decide) (by rfl)
  exact ⟨h.1, h.2.2.2.1⟩

/-- Closed witness for the amended C5. -/
theorem save_result_fields_spec_witness :
    (save_ein_changes true
        ⟨[(100, ⟨["Acme Inc", "ACME INCORPORATED"], [], [], none, none⟩)], ∅, []⟩
        100 ⟨[], none, [("ACME INCORPORATED", 999)]⟩).2 =
      Except.ok (specSaveResult
        ⟨[(100, ⟨["Acme Inc", "ACME INCORPORATED"], [], [], none, none⟩)], ∅, []⟩
        100 ⟨[], none, [("ACME INCORPORATED", 999)]⟩
        ⟨["Acme Inc", "ACME INCORPORATED"], [], [], none, none⟩) :=
  (save_result_fields_spec
    ⟨[(100, ⟨["Acme Inc", "ACME INCORPORATED"], [], [], none, none⟩)], ∅, []⟩
    100 ⟨[], none, [("ACME INCORPORATED", 999)]⟩
    ⟨["Acme Inc", "ACME INCORPORATED"], [], [], none, none⟩
    (by rfl) (by decide) (by decide)).1

/-- C8: `applyUpdate` is idempotent on the store state — running the same
call twice leaves every record and the edited set exactly as after one run
— and a second call whose transfer-candidate names are all already gone
from the source reports zero transfers. -/
theorem save_idempotent
    (persistOk : Bool) (s : SysState) (ein : Nat) (req : SaveRequest)
    (r₀ : Record) (hs : alistFind s.df ein = some r₀) (hnd : r₀.names.Nodup)
    (hkeys : (req.name_ein_mappings.map Prod.fst).Nodup) :
    (∀ j, alistFind
        (save_ein_changes persistOk
          (save_ein_changes persistOk s ein req).1 ein req).1.df j =
        alistFind (save_ein_changes persistOk s ein req).1.df j) ∧
    ((save_ein_changes persistOk
        (save_ein_changes persistOk s ein req).1 ein req).1.edited =
      (save_ein_changes persistOk s ein req).1.edited) ∧
    (∀ r₁, alistFind (save_ein_changes persistOk s ein req).1.df ein = some r₁ →
      (∀ q ∈ transferCandidates (save_ein_changes persistOk s ein req).1.df req,
        q.1 ∉ r₁.names) →
      (save_ein_changes true
        (save_ein_changes persistOk s ein req).1 ein req).2.map
          SaveResult.transferred_count = Except.ok 0) := by
  obtain ⟨c1, c2, c3, -, -, -, -⟩ := save_spec persistOk s ein req r₀ hs hnd hkeys
  have hkT := nodup_keys_transferCandidates s req hkeys
  have hndR1 : (finalSourceRecord s ein req r₀).names.Nodup :=
    srcAfter_nodup ein r₀.names (transferCandidates s.df req) hnd hkT
  have keysEq : ∀ j, (alistFind (save_ein_changes persistOk s ein req).1.df j).isSome =
      (alistFind s.df j).isSome := by
    intro j
    by_cases hj : j = ein
    · rw [hj, c1, hs]
      rfl
    · rw [c2 j hj, Option.isSome_map']
  have hT1 : transferCandidates (save_ein_changes persistOk s ein req).1.df req =
      transferCandidates s.df req := by
    unfold transferCandidates
    exact List.filter_congr (fun p _ => keysEq p.2)
  have hP1 : pendingPairs (save_ein_changes persistOk s ein req).1.df req =
      pendingPairs s.df req := by
    unfold pendingPairs
    congr 1
    exact List.filter_congr (fun p _ => by rw [keysEq p.2])
  have hRec : finalSourceRecord (save_ein_changes persistOk s ein req).1 ein req
      (finalSourceRecord s ein req r₀) = finalSourceRecord s ein req r₀ := by
    unfold finalSourceRecord
    dsimp only
    rw [hT1, hP1,
      srcAfter_idem ein r₀.names (transferCandidates s.df req) hnd hkT,
      dictUpdate_idem r₀.mappings (pendingPairs s.df req)
        (nodup_keys_pendingPairs s.df req)]
  obtain ⟨d1, d2, d3, -, -, -, -⟩ :=
    save_spec persistOk (save_ein_changes persistOk s ein req).1 ein req
      (finalSourceRecord s ein req r₀) c1 hndR1 hkeys
  refine ⟨?_, ?_, ?_⟩
  · intro j
    by_cases hj : j = ein
    · rw [hj, d1, hRec, c1]
    · rw [d2 j hj]
      cases hfj : alistFind (save_ein_changes persistOk s ein req).1.df j with
      | none => rfl
      | some rtj =>
        simp only [Option.map_some']
        have hnil : tgtAppends j (finalSourceRecord s ein req r₀).names rtj.names
            (transferCandidates (save_ein_changes persistOk s ein req).1.df req) = [] := by
          refine tgtAppends_eq_nil _ _ _ _ ?_
          rintro p hp ⟨h1, h2, -⟩
          rw [hT1] at hp
          have := (mem_srcAfter_key ein r₀.names (transferCandidates s.df req)
            p.1 p.2 hp hkT).mp h2
          exact hj (h1 ▸ this.1.symm ▸ rfl)
        rw [hnil, List.append_nil]
  · rw [d3, c3]
    cases h : savedUseNew req with
    | false => simp [Finset.erase_idem]
    | true => simp [Finset.insert_idem]
  · intro r₁ hr₁ hmoved
    have hr₁eq : r₁ = finalSourceRecord s ein req r₀ := by
      rw [c1] at hr₁
      exact (Option.some.inj hr₁).symm
    subst hr₁eq
    obtain ⟨-, -, -, e4, -, -, -⟩ :=
      save_spec true (save_ein_changes persistOk s ein req).1 ein req
        (finalSourceRecord s ein req r₀) c1 hndR1 hkeys
    rw [e4 rfl]
    show Except.ok ((transferCandidates (save_ein_changes persistOk s ein req).1.df
      req).countP (countCond ein (save_ein_changes persistOk s ein req).1.df
        (finalSourceRecord s ein req r₀).names)) = Except.ok 0
    congr 1
    rw [List.countP_eq_zero]
    intro q hq hcq
    unfold countCond at hcq
    simp only [decide_eq_true_eq] at hcq
    exact hmoved q hq hcq.1

/-- Closed witness for C8. -/
theorem save_idempotent_witness :
    (alistFind
        (save_ein_changes true
          (save_ein_changes true
            ⟨[(100, ⟨["Acme Inc", "ACME INCORPORATED"], [], [], none, none⟩),
              (200, ⟨["Beta LLC"], [], [], none, none⟩)], ∅, []⟩
            100 ⟨[], none, [("ACME INCORPORATED", 200)]⟩).1
          100 ⟨[], none, [("ACME INCORPORATED", 200)]⟩).1.df 100 =
      alistFind (save_ein_changes true
            ⟨[(100, ⟨["Acme Inc", "ACME INCORPORATED"], [], [], none, none⟩),
              (200, ⟨["Beta LLC"], [], [], none, none⟩)], ∅, []⟩
            100 ⟨[], none, [("ACME INCORPORATED", 200)]⟩).1.df 100) ∧
    (alistFind
        (save_ein_changes true
          (save_ein_changes true
            ⟨[(100, ⟨["Acme Inc", "ACME INCORPORATED"], [], [], none, none⟩),
              (200, ⟨["Beta LLC"], [], [], none, none⟩)], ∅, []⟩
            100 ⟨[], none, [("ACME INCORPORATED", 200)]⟩).1
          100 ⟨[], none, [("ACME INCORPORATED", 200)]⟩).1.df 200 =
      alistFind (save_ein_changes true
            ⟨[(100, ⟨["Acme Inc", "ACME INCORPORATED"], [], [], none, none⟩),
              (200, ⟨["Beta LLC"], [], [], none, none⟩)], ∅, []⟩
            100 ⟨[], none, [("ACME INCORPORATED", 200)]⟩).1.df 200) := by
  have h := save_idempotent true
    ⟨[(100, ⟨["Acme Inc", "ACME INCORPORATED"], [], [], none, none⟩),
      (200, ⟨["Beta LLC"], [], [], none, none⟩)], ∅, []⟩
    100 ⟨[], none, [("ACME INCORPORATED", 200)]⟩
    ⟨["Acme Inc", "ACME INCORPORATED"], [], [], none, none⟩
    (by rfl) (by decide) (by decide)
  exact ⟨h.1 100, h.1 200⟩

/-- Cache coherence invariant: every cached view is the rendering of the
current row of its EIN. -/
def CacheOK (s : SysState) : Prop :=
  ∀ j v, alistFind s.cache j = some v →
    ∃ r, alistFind s.df j = some r ∧ v = renderView j r

/-- C9: after any `applyUpdate` the cache holds no entry for the source nor
for any target whose record was modified; a successful persistence cycle
and a reload leave the cache empty; and under the coherence invariant —
which `get`, `applyUpdate` and reload all preserve — every view `get`
returns is rendered from the current store state. -/
theorem cache_coherence
    (persistOk : Bool) (s : SysState) (ein : Nat) (req : SaveRequest)
    (rows : List (Nat × Record)) (r₀ : Record)
    (hs : alistFind s.df ein = some r₀) (hnd : r₀.names.Nodup)
    (hkeys : (req.name_ein_mappings.map Prod.fst).Nodup)
    (hok : CacheOK s) :
    (alistFind (save_ein_changes persistOk s ein req).1.cache ein = none) ∧
    (∀ j rt, j ≠ ein → alistFind s.df j = some rt →
      tgtAppends j r₀.names rt.names (transferCandidates s.df req) ≠ [] →
      alistFind (save_ein_changes persistOk s ein req).1.cache j = none) ∧
    ((save_ein_changes true s ein req).1.cache = []) ∧
    ((load_working_file rows).cache = []) ∧
    CacheOK (save_ein_changes persistOk s ein req).1 ∧
    (∀ i, CacheOK (get_ein_data s i).1) ∧
    (∀ i v, (get_ein_data s i).2 = Except.ok v →
      ∃ r, alistFind s.df i = some r ∧ v = renderView i r) ∧
    CacheOK (load_working_file rows) := by
  obtain ⟨c1, c2, c3, c4, c5, c6, c7⟩ := save_spec persistOk s ein req r₀ hs hnd hkeys
  obtain ⟨-, -, -, -, e5, -, -⟩ := save_spec true s ein req r₀ hs hnd hkeys
  have hcachechar : persistOk = false →
      ∀ j, alistFind (save_ein_changes persistOk s ein req).1.cache j =
        if j = ein then none
        else if (transferCandidates s.df req).any
            (fun p => p.2 == j && countCond ein s.df r₀.names p) then none
        else alistFind s.cache j := c7
  refine ⟨?_, ?_, e5 rfl, rfl, ?_, ?_, ?_, ?_⟩
  · cases persistOk with
    | true =>
      rw [c5 rfl]
      rfl
    | false =>
      rw [hcachechar rfl ein, if_pos rfl]
  · intro j rt hj hrt happ
    cases persistOk with
    | true =>
      rw [c5 rfl]
      rfl
    | false =>
      rw [hcachechar rfl j, if_neg hj]
      obtain ⟨a, ha⟩ := List.exists_mem_of_ne_nil _ happ
      rw [mem_tgtAppends] at ha
      obtain ⟨p, hpT, h1, h2, h3, -⟩ := ha
      have hany : (transferCandidates s.df req).any
          (fun p => p.2 == j && countCond ein s.df r₀.names p) = true := by
        rw [List.any_eq_true]
        refine ⟨p, hpT, ?_⟩
        rw [Bool.and_eq_true, beq_iff_eq]
        refine ⟨h1, ?_⟩
        unfold countCond
        rw [decide_eq_true_eq]
        refine ⟨h2, Or.inr ?_⟩
        rw [h1, hrt]
        exact h3
      rw [if_pos hany]
  · cases persistOk with
    | true =>
      intro j v hjv
      rw [c5 rfl] at hjv
      cases hjv
    | false =>
      intro j v hjv
      rw [hcachechar rfl j] at hjv
      by_cases hje : j = ein
      · rw [if_pos hje] at hjv
        cases hjv
      · rw [if_neg hje] at hjv
        by_cases hany : (transferCandidates s.df req).any
            (fun p => p.2 == j && countCond ein s.df r₀.names p) = true
        · rw [if_pos hany] at hjv
          cases hjv
        · rw [if_neg hany] at hjv
          obtain ⟨r, hr, hv⟩ := hok j v hjv
          have hnil : tgtAppends j r₀.names r.names
              (transferCandidates s.df req) = [] := by
            refine tgtAppends_eq_nil _ _ _ _ ?_
            rintro p hp ⟨h1, h2, h3⟩
            apply hany
            rw [List.any_eq_true]
            refine ⟨p, hp, ?_⟩
            rw [Bool.and_eq_true, beq_iff_eq]
            refine ⟨h1, ?_⟩
            unfold countCond
            rw [decide_eq_true_eq]
            refine ⟨h2, Or.inr ?_⟩
            rw [h1, hr]
            exact h3
          refine ⟨r, ?_, hv⟩
          rw [c2 j hje, hr]
          simp [hnil]
  · intro i
    cases hc : alistFind s.cache i with
    | some w =>
      rw [get_hit s i w hc]
      exact hok
    | none =>
      cases hd : alistFind s.df i with
      | none =>
        rw [get_not_found s i hc hd]
        exact hok
      | some r =>
        rw [get_miss_found s i r hc hd]
        intro j v hjv
        rw [show ({ s with cache := alistUpsert s.cache i (renderView i r) } :
            SysState).cache = alistUpsert s.cache i (renderView i r) from rfl,
          alistFind_alistUpsert] at hjv
        by_cases hji : j = i
        · rw [if_pos hji] at hjv
          subst hji
          injection hjv with hjv'
          exact ⟨r, hd, hjv'.symm⟩
        · rw [if_neg hji] at hjv
          exact hok j v hjv
  · intro i v hv
    cases hc : alistFind s.cache i with
    | some w =>
      rw [get_hit s i w hc] at hv
      injection hv with hv'
      obtain ⟨r, hr, hw⟩ := hok i w hc
      exact ⟨r, hr, hv' ▸ hw⟩
    | none =>
      cases hd : alistFind s.df i with
      | none =>
        rw [get_not_found s i hc hd] at hv
        cases hv
      | some r =>
        rw [get_miss_found s i r hc hd] at hv
        injection hv with hv'
        exact ⟨r, rfl, hv'.symm⟩
  · intro j v hjv
    simp [load_working_file, alistFind] at hjv

/-- Closed witness for C9. -/
theorem cache_coherence_witness :
    (alistFind (save_ein_changes true
        ⟨[(100, ⟨["Acme Inc", "ACME INCORPORATED"], [], [], none, none⟩),
          (200, ⟨["Beta LLC"], [], [], none, none⟩)], ∅, []⟩
        100 ⟨[], none, [("ACME INCORPORATED", 200)]⟩).1.cache 100 = none) ∧
    ((save_ein_changes true
        ⟨[(100, ⟨["Acme Inc", "ACME INCORPORATED"], [], [], none, none⟩),
          (200, ⟨["Beta LLC"], [], [], none, none⟩)], ∅, []⟩
        100 ⟨[], none, [("ACME INCORPORATED", 200)]⟩).1.cache = []) := by
  have h := cache_coherence true
    ⟨[(100, ⟨["Acme Inc", "ACME INCORPORATED"], [], [], none, none⟩),
      (200, ⟨["Beta LLC"], [], [], none, none⟩)], ∅, []⟩
    100 ⟨[], none, [("ACME INCORPORATED", 200)]⟩ []
    ⟨["Acme Inc", "ACME INCORPORATED"], [], [], none, none⟩
    (by rfl) (by decide) (by decide)
    (by intro j v hjv; simp [alistFind] at hjv)
  exact ⟨h.1, h.2.2.1⟩

end EinEditor
